import Mathlib

/-!
Verification development for `authors.py`, a script that assembles an
ordered, deduplicated author list for an academic paper.  The Python
source is shallowly embedded: strings are Lean `String`s manipulated
through character-list primitives that model the Python `str` methods
used by the script (`strip`, `rstrip(',')`, `split`, `lower`, `upper`),
tables are lists of records, file I/O is modelled by finite maps from
file names to parsed contents, and `sys.exit(1)` is modelled by
`Except.error 1`.
-/

namespace AuthorsPy

/-! ## Python string primitives -/

/-- Whitespace characters recognised by Python's `str.strip` / `str.split`
(restricted to the ASCII range, which is all the script relies on). -/
def isSpaceChar (c : Char) : Bool :=
  c = ' ' || c = '\t' || c = '\n' || c = '\r' || c = '\x0b' || c = '\x0c'

/-- Model of Python `str.strip()` on a character list. -/
def pyStripList (l : List Char) : List Char :=
  ((l.dropWhile isSpaceChar).reverse.dropWhile isSpaceChar).reverse

/-- Model of Python `str.strip()`. -/
def pyStrip (s : String) : String :=
  ⟨pyStripList s.data⟩

/-- Model of Python `str.rstrip(',')`: remove all trailing commas. -/
def pyRstripComma (s : String) : String :=
  ⟨(s.data.reverse.dropWhile (fun c => c = ',')).reverse⟩

/-- Model of Python `str.lower()` (ASCII). -/
def pyLower (s : String) : String :=
  ⟨s.data.map Char.toLower⟩

/-- Model of Python `str.upper()` (ASCII). -/
def pyUpper (s : String) : String :=
  ⟨s.data.map Char.toUpper⟩

/-- Helper for `pyWords`: split a character list on whitespace runs,
accumulating the current word in reverse. -/
def wordsAux : List Char → List Char → List String
  | [], acc => if acc.isEmpty then [] else [⟨acc.reverse⟩]
  | c :: cs, acc =>
    if isSpaceChar c then
      (if acc.isEmpty then wordsAux cs [] else (⟨acc.reverse⟩ : String) :: wordsAux cs [])
    else
      wordsAux cs (c :: acc)

/-- Model of Python `str.split()` (no argument): split on whitespace runs,
discarding empty fragments. -/
def pyWords (s : String) : List String :=
  wordsAux s.data []

/-- Model of Python `' '.join(...)`. -/
def joinSpace : List String → String
  | [] => ""
  | [s] => s
  | s :: ss => s ++ " " ++ joinSpace ss

/-! ## Data model

One record per table row, after the columns added by `main` exist
(`Email`, `Affiliations`, `Order`).  The unused `Country` column is not
modelled.  Machine representation of the CSV input is one record per
(author, affiliation) pair. -/

structure CsvRow where
  Authorname : String
  Firstname : String
  Lastname : String
  ORCID : String
  Affiliation : String
deriving DecidableEq

structure Row where
  Authorname : String
  Firstname : String
  Lastname : String
  ORCID : String
  Email : String
  Affiliations : List String
  Order : Nat
deriving DecidableEq

structure UserRow where
  Name : String
  Email : String
deriving DecidableEq

/-! ## `find_author_name_in_table` (authors.py lines 21-47) -/

/-- The per-row comparison inside `find_author_name_in_table`, at split
point `i` of the word list `parts`: `parts[:i]` is the candidate first
name, `parts[i:]` the candidate last name; the table fields are compared
case-insensitively after stripping whitespace (and trailing commas on
the last name). -/
def rowMatchesAt (parts : List String) (i : Nat) (row : Row) : Bool :=
  pyLower (pyStrip row.Firstname) == pyLower (pyStrip (joinSpace (parts.take i))) &&
  pyLower (pyRstripComma (pyStrip row.Lastname)) == pyLower (pyStrip (joinSpace (parts.drop i)))

/-- The inner `for row in table` loop of `find_author_name_in_table`. -/
def searchRows (parts : List String) (i : Nat) : List Row → Option String
  | [] => none
  | row :: rest =>
    if rowMatchesAt parts i row then some row.Authorname else searchRows parts i rest

/-- The outer `for i in range(1, len(name_parts))` loop of
`find_author_name_in_table`. -/
def trySplits (parts : List String) (table : List Row) : List Nat → Option String
  | [] => none
  | i :: is =>
    match searchRows parts i table with
    | some a => some a
    | none => trySplits parts table is

/-- `find_author_name_in_table(full_name, table)`: resolve a free-text
name against the table, trying every split point between first and last
name; `none` models Python's `None`. -/
def find_author_name_in_table (full_name : String) (table : List Row) : Option String :=
  let name_parts := pyWords (pyStrip full_name)
  if name_parts.length < 2 then none
  else trySplits name_parts table (List.range' 1 (name_parts.length - 1))

/-! ## Characterization of `find_author_name_in_table` -/

theorem searchRows_eq_none_iff (parts : List String) (i : Nat) (t : List Row) :
    searchRows parts i t = none ↔ ∀ r ∈ t, rowMatchesAt parts i r = false := by
  induction t with
  | nil => simp [searchRows]
  | cons row rest ih =>
    by_cases h : rowMatchesAt parts i row = true
    · simp [searchRows, h]
    · simp only [Bool.not_eq_true] at h
      simp [searchRows, h, ih]

theorem searchRows_eq_some (parts : List String) (i : Nat) (t : List Row) (a : String)
    (h : searchRows parts i t = some a) :
    ∃ t₁ r t₂, t = t₁ ++ r :: t₂ ∧ rowMatchesAt parts i r = true ∧ a = r.Authorname ∧
      ∀ r' ∈ t₁, rowMatchesAt parts i r' = false := by
  induction t with
  | nil => simp [searchRows] at h
  | cons row rest ih =>
    by_cases hm : rowMatchesAt parts i row = true
    · refine ⟨[], row, rest, by simp, hm, ?_, by simp⟩
      simp only [searchRows, hm, if_true, Option.some.injEq] at h
      exact h.symm
    · simp only [Bool.not_eq_true] at hm
      simp only [searchRows, hm, Bool.false_eq_true, if_false] at h
      obtain ⟨t₁, r, t₂, hsplit, hr, ha, hprev⟩ := ih h
      refine ⟨row :: t₁, r, t₂, by simp [hsplit], hr, ha, ?_⟩
      intro r' hr'
      rcases List.mem_cons.mp hr' with h1 | h1
      · rw [h1]; exact hm
      · exact hprev r' h1

theorem trySplits_range'_eq_none_iff (parts : List String) (t : List Row) :
    ∀ (k s : Nat), trySplits parts t (List.range' s k) = none ↔
      ∀ i, s ≤ i → i < s + k → searchRows parts i t = none := by
  intro k
  induction k with
  | zero =>
    intro s
    constructor
    · intro _ i h1 h2
      exact absurd h2 (by omega)
    · intro _
      simp [List.range', trySplits]
  | succ n ih =>
    intro s
    rw [List.range'_succ]
    cases hs : searchRows parts s t with
    | some a =>
      constructor
      · intro h
        exact absurd h (by simp [trySplits, hs])
      · intro h
        exact absurd (h s (Nat.le_refl s) (by omega)) (by simp [hs])
    | none =>
      have heval : trySplits parts t (s :: List.range' (s + 1) n) =
          trySplits parts t (List.range' (s + 1) n) := by
        simp [trySplits, hs]
      rw [heval, ih (s + 1)]
      constructor
      · intro h i h1 h2
        rcases Nat.eq_or_lt_of_le h1 with he | hl
        · rw [← he]; exact hs
        · exact h i hl (by omega)
      · intro h i h1 h2
        exact h i (by omega) (by omega)

theorem trySplits_range'_eq_some (parts : List String) (t : List Row) :
    ∀ (k s : Nat) (a : String), trySplits parts t (List.range' s k) = some a →
      ∃ i, s ≤ i ∧ i < s + k ∧ searchRows parts i t = some a ∧
        ∀ j, s ≤ j → j < i → searchRows parts j t = none := by
  intro k
  induction k with
  | zero =>
    intro s a h
    simp [List.range', trySplits] at h
  | succ n ih =>
    intro s a h
    rw [List.range'_succ] at h
    cases hs : searchRows parts s t with
    | some b =>
      have hb : some b = some a := by
        rw [← h]; simp [trySplits, hs]
      refine ⟨s, Nat.le_refl s, by omega, hs.trans hb, ?_⟩
      intro j h1 h2
      exact absurd (Nat.lt_of_le_of_lt h1 h2) (Nat.lt_irrefl s)
    | none =>
      have h' : trySplits parts t (List.range' (s + 1) n) = some a := by
        rw [← h]; simp [trySplits, hs]
      obtain ⟨i, hi1, hi2, hi3, hi4⟩ := ih (s + 1) a h'
      refine ⟨i, by omega, by omega, hi3, ?_⟩
      intro j h1 h2
      rcases Nat.eq_or_lt_of_le h1 with he | hl
      · rw [← he]; exact hs
      · exact hi4 j hl h2

/-- C4: the exact name resolver tries each split point `i` from `1` to
word count minus one, treating `words[:i]` as first name and `words[i:]`
as last name, compares case-insensitively (with whitespace stripped and
trailing commas removed from the table's last-name field) against every
row, and returns the `Authorname` of the first match (first in split
order, then in row order); it returns `none` exactly when no split
matches any row, and a single-word input always returns `none`. -/
theorem claim_C4 (full_name : String) (table : List Row) :
    ((pyWords (pyStrip full_name)).length < 2 →
      find_author_name_in_table full_name table = none) ∧
    (find_author_name_in_table full_name table = none ↔
      ((pyWords (pyStrip full_name)).length < 2 ∨
        ∀ i, 1 ≤ i → i < (pyWords (pyStrip full_name)).length →
          ∀ r ∈ table, rowMatchesAt (pyWords (pyStrip full_name)) i r = false)) ∧
    (∀ a, find_author_name_in_table full_name table = some a →
      ∃ i, 1 ≤ i ∧ i < (pyWords (pyStrip full_name)).length ∧
        (∀ j, 1 ≤ j → j < i →
          ∀ r ∈ table, rowMatchesAt (pyWords (pyStrip full_name)) j r = false) ∧
        ∃ t₁ r t₂, table = t₁ ++ r :: t₂ ∧
          rowMatchesAt (pyWords (pyStrip full_name)) i r = true ∧ a = r.Authorname ∧
          ∀ r' ∈ t₁, rowMatchesAt (pyWords (pyStrip full_name)) i r' = false) := by
  by_cases hlen : (pyWords (pyStrip full_name)).length < 2
  · have hnone : find_author_name_in_table full_name table = none := by
      simp [find_author_name_in_table, hlen]
    refine ⟨fun _ => hnone, ?_, ?_⟩
    · simp [hnone, hlen]
    · intro a ha
      rw [hnone] at ha
      exact absurd ha (by simp)
  · have hge : 2 ≤ (pyWords (pyStrip full_name)).length := by omega
    have hfind : find_author_name_in_table full_name table =
        trySplits (pyWords (pyStrip full_name)) table
          (List.range' 1 ((pyWords (pyStrip full_name)).length - 1)) := by
      simp [find_author_name_in_table, hlen]
    refine ⟨fun h => absurd h hlen, ?_, ?_⟩
    · rw [hfind, trySplits_range'_eq_none_iff]
      constructor
      · intro h
        refine Or.inr ?_
        intro i h1 h2 r hr
        have := (searchRows_eq_none_iff (pyWords (pyStrip full_name)) i table).mp
          (h i h1 (by omega))
        exact this r hr
      · intro h i h1 h2
        rcases h with h | h
        · exact absurd h hlen
        · exact (searchRows_eq_none_iff (pyWords (pyStrip full_name)) i table).mpr
            (h i h1 (by omega))
    · intro a ha
      rw [hfind] at ha
      obtain ⟨i, hi1, hi2, hi3, hi4⟩ :=
        trySplits_range'_eq_some (pyWords (pyStrip full_name)) table _ _ a ha
      obtain ⟨t₁, r, t₂, hsplit, hr, haeq, hprev⟩ :=
        searchRows_eq_some (pyWords (pyStrip full_name)) i table a hi3
      refine ⟨i, hi1, by omega, ?_, t₁, r, t₂, hsplit, hr, haeq, hprev⟩
      intro j h1 h2 r' hr'
      exact (searchRows_eq_none_iff (pyWords (pyStrip full_name)) j table).mp
        (hi4 j h1 h2) r' hr'

/-- Witness for C4: a single-word input fails to resolve even on a
non-empty table (antecedent of the first conjunct discharged at a
concrete input). -/
theorem claim_C4_witness :
    find_author_name_in_table ("Smith")
      [{ Authorname := "Smith, J.", Firstname := "John", Lastname := "Smith",
         ORCID := "", Email := "", Affiliations := [], Order := 0 }] = none :=
  (claim_C4 ("Smith")
    [{ Authorname := "Smith, J.", Firstname := "John", Lastname := "Smith",
       ORCID := "", Email := "", Affiliations := [], Order := 0 }]).1 (by decide)

/-! ## Lexicographic string comparison (Python `str` ordering by code point) -/

/-- Lexicographic `≤` on character lists by code point, modelling how
Python compares the `str` sort keys used by the script. -/
def charListLe : List Char → List Char → Bool
  | [], _ => true
  | _ :: _, [] => false
  | a :: as, b :: bs =>
    if a.toNat < b.toNat then true
    else if b.toNat < a.toNat then false
    else charListLe as bs

theorem charListLe_total : ∀ (a b : List Char), charListLe a b = true ∨ charListLe b a = true := by
  intro a
  induction a with
  | nil => intro b; exact Or.inl rfl
  | cons x as ih =>
    intro b
    cases b with
    | nil => exact Or.inr rfl
    | cons y bs =>
      by_cases exy : x.toNat < y.toNat
      · exact Or.inl (by simp [charListLe, exy])
      · by_cases eyx : y.toNat < x.toNat
        · exact Or.inr (by simp [charListLe, eyx])
        · rcases ih bs with h | h
          · exact Or.inl (by simp [charListLe, exy, eyx, h])
          · exact Or.inr (by simp [charListLe, exy, eyx, h])

theorem charListLe_trans : ∀ (a b c : List Char),
    charListLe a b = true → charListLe b c = true → charListLe a c = true := by
  intro a
  induction a with
  | nil => intro b c _ _; rfl
  | cons x as ih =>
    intro b c h1 h2
    cases b with
    | nil => simp [charListLe] at h1
    | cons y bs =>
      cases c with
      | nil => simp [charListLe] at h2
      | cons z cs =>
        by_cases exy : x.toNat < y.toNat
        · by_cases eyz : y.toNat < z.toNat
          · simp [charListLe, show x.toNat < z.toNat by omega]
          · by_cases ezy : z.toNat < y.toNat
            · simp [charListLe, eyz, ezy] at h2
            · simp [charListLe, show x.toNat < z.toNat by omega]
        · by_cases eyx : y.toNat < x.toNat
          · simp [charListLe, exy, eyx] at h1
          · by_cases eyz : y.toNat < z.toNat
            · simp [charListLe, show x.toNat < z.toNat by omega]
            · by_cases ezy : z.toNat < y.toNat
              · simp [charListLe, eyz, ezy] at h2
              · have hxz1 : ¬ x.toNat < z.toNat := by omega
                have hxz2 : ¬ z.toNat < x.toNat := by omega
                simp only [charListLe, exy, eyx, if_false] at h1
                simp only [charListLe, eyz, ezy, if_false] at h2
                simp only [charListLe, hxz1, hxz2, if_false]
                exact ih bs cs h1 h2

theorem charListLe_refl : ∀ (a : List Char), charListLe a a = true := by
  intro a
  induction a with
  | nil => rfl
  | cons x as ih => simp [charListLe, Nat.lt_irrefl, ih]

/-- Code-point `≤` on strings (Python `str` comparison). -/
def pyStrLe (a b : String) : Bool := charListLe a.data b.data

/-- Comparison of the sort keys `x.upper()` used by
`sorted(..., key=lambda x: x[1].upper())`. -/
def upperKeyLe (a b : String) : Bool := pyStrLe (pyUpper a) (pyUpper b)

/-- Strict case-insensitive (upper-cased) ordering of last names. -/
def upperKeyLt (a b : String) : Prop := upperKeyLe a b = true ∧ upperKeyLe b a = false

instance (a b : String) : Decidable (upperKeyLt a b) := by
  unfold upperKeyLt; infer_instance

/-- Ordering of `(Authorname, Lastname)` pairs by `Lastname.upper()`,
the key of the tier-2/tier-3 sorts. -/
def pairKeyLe (p q : String × String) : Prop := upperKeyLe p.2 q.2 = true

instance : DecidableRel pairKeyLe := fun p q => by
  unfold pairKeyLe; infer_instance

instance : IsTotal (String × String) pairKeyLe :=
  ⟨fun p q => charListLe_total (pyUpper p.2).data (pyUpper q.2).data⟩

instance : IsTrans (String × String) pairKeyLe :=
  ⟨fun _ _ _ h1 h2 => charListLe_trans _ _ _ h1 h2⟩

/-- Code-point ordering of author names (the order `np.unique` returns). -/
def nameLe (a b : String) : Prop := pyStrLe a b = true

instance : DecidableRel nameLe := fun a b => by
  unfold nameLe; infer_instance

instance : IsTotal String nameLe := ⟨fun a b => charListLe_total a.data b.data⟩

instance : IsTrans String nameLe := ⟨fun _ _ _ h1 h2 => charListLe_trans _ _ _ h1 h2⟩

/-- Ordering of rows by the `Order` column (`table.sort('Order')`). -/
def orderLe (a b : Row) : Prop := a.Order ≤ b.Order

instance : DecidableRel orderLe := fun a b => by
  unfold orderLe; infer_instance

instance : IsTotal Row orderLe := ⟨fun a b => Nat.le_total a.Order b.Order⟩

instance : IsTrans Row orderLe := ⟨fun _ _ _ h1 h2 => Nat.le_trans h1 h2⟩

/-- Ordering of `(affiliation, number)` pairs by assigned number. -/
def numLe (p q : String × Nat) : Prop := p.2 ≤ q.2

instance : DecidableRel numLe := fun p q => by
  unfold numLe; infer_instance

instance : IsTotal (String × Nat) numLe := ⟨fun p q => Nat.le_total p.2 q.2⟩

instance : IsTrans (String × Nat) numLe := ⟨fun _ _ _ h1 h2 => Nat.le_trans h1 h2⟩

/-- Descending ordering of `(choice, score)` pairs by score, the order in
which the similarity ranking returns its matches. -/
def scoreDesc (p q : String × Nat) : Prop := q.2 ≤ p.2

instance : DecidableRel scoreDesc := fun p q => by
  unfold scoreDesc; infer_instance

instance : IsTotal (String × Nat) scoreDesc := ⟨fun p q => Nat.le_total q.2 p.2⟩

instance : IsTrans (String × Nat) scoreDesc := ⟨fun _ _ _ h1 h2 => Nat.le_trans h2 h1⟩

/-! ## `find_closest_author_match` (authors.py lines 49-72) -/

/-- Modelled from the spec: the string-similarity ranking of
`fuzzywuzzy.process.extract` (an external dependency whose code is not
part of this repository) scores the query against every choice and
returns the `limit` best-scoring choices, highest score first.  The
similarity scorer itself is kept abstract as a parameter. -/
def extract (scorer : String → String → Nat) (query : String) (choices : List String)
    (limit : Nat) : List (String × Nat) :=
  (List.insertionSort scoreDesc (choices.map (fun c => (c, scorer query c)))).take limit

/-- The `"First Last"` comparison string built for a table row. -/
def full_name_of (row : Row) : String :=
  pyStrip row.Firstname ++ " " ++ pyRstripComma (pyStrip row.Lastname)

/-- The filtering loop of `find_closest_author_match`: keep the matches at
or above the threshold and pair each with the `Authorname` of the first
table entry bearing that full name. -/
def validMatchesLoop (threshold : Nat) (full_names : List (String × String)) :
    List (String × Nat) → List (String × Nat × String)
  | [] => []
  | (match_name, confidence) :: rest =>
    if threshold ≤ confidence then
      match full_names.find? (fun p => p.1 == match_name) with
      | some p => (p.2, confidence, p.1) :: validMatchesLoop threshold full_names rest
      | none => validMatchesLoop threshold full_names rest
    else validMatchesLoop threshold full_names rest

/-- `find_closest_author_match(target_name, table, threshold)`.  The
script's call sites use the default `threshold=70`. -/
def find_closest_author_match (scorer : String → String → Nat) (target_name : String)
    (table : List Row) (threshold : Nat) : List (String × Nat × String) :=
  let full_names := table.map (fun row => (full_name_of row, row.Authorname))
  let best_matches := extract scorer target_name (full_names.map (fun p => p.1)) 3
  validMatchesLoop threshold full_names best_matches

theorem validMatchesLoop_length_le (threshold : Nat) (full_names : List (String × String)) :
    ∀ l, (validMatchesLoop threshold full_names l).length ≤ l.length := by
  intro l
  induction l with
  | nil => simp [validMatchesLoop]
  | cons hd rest ih =>
    obtain ⟨mn, conf⟩ := hd
    by_cases h : threshold ≤ conf
    · cases hf : full_names.find? (fun p => p.1 == mn) with
      | some p =>
        simp only [validMatchesLoop, h, if_true, hf, List.length_cons]
        omega
      | none =>
        simp only [validMatchesLoop, h, if_true, hf, List.length_cons]
        omega
    · simp only [validMatchesLoop, h, if_false, List.length_cons]
      omega

theorem validMatchesLoop_mem (threshold : Nat) (full_names : List (String × String)) :
    ∀ l x, x ∈ validMatchesLoop threshold full_names l →
      threshold ≤ x.2.1 ∧ (∃ p ∈ l, x.2.1 = p.2) ∧ ∃ q ∈ full_names, x = (q.2, x.2.1, q.1) := by
  intro l
  induction l with
  | nil => intro x hx; simp [validMatchesLoop] at hx
  | cons hd rest ih =>
    intro x hx
    obtain ⟨mn, conf⟩ := hd
    by_cases h : threshold ≤ conf
    · cases hf : full_names.find? (fun p => p.1 == mn) with
      | some p =>
        simp only [validMatchesLoop, h, if_true, hf] at hx
        rcases List.mem_cons.mp hx with h1 | h1
        · refine ⟨by rw [h1]; exact h, ⟨(mn, conf), List.mem_cons_self _ _, by rw [h1]⟩, ?_⟩
          exact ⟨p, List.mem_of_find?_eq_some hf, by rw [h1]⟩
        · obtain ⟨ht, ⟨p', hp', hs⟩, hq⟩ := ih x h1
          exact ⟨ht, ⟨p', List.mem_cons_of_mem _ hp', hs⟩, hq⟩
      | none =>
        simp only [validMatchesLoop, h, if_true, hf] at hx
        obtain ⟨ht, ⟨p', hp', hs⟩, hq⟩ := ih x hx
        exact ⟨ht, ⟨p', List.mem_cons_of_mem _ hp', hs⟩, hq⟩
    · simp only [validMatchesLoop, h, if_false] at hx
      obtain ⟨ht, ⟨p', hp', hs⟩, hq⟩ := ih x hx
      exact ⟨ht, ⟨p', List.mem_cons_of_mem _ hp', hs⟩, hq⟩

theorem validMatchesLoop_pairwise (threshold : Nat) (full_names : List (String × String)) :
    ∀ l, l.Pairwise (fun p q => q.2 ≤ p.2) →
      (validMatchesLoop threshold full_names l).Pairwise (fun x y => y.2.1 ≤ x.2.1) := by
  intro l
  induction l with
  | nil => intro _; simp [validMatchesLoop]
  | cons hd rest ih =>
    intro hp
    obtain ⟨mn, conf⟩ := hd
    have htail := (List.pairwise_cons.mp hp).2
    have hhead := (List.pairwise_cons.mp hp).1
    by_cases h : threshold ≤ conf
    · cases hf : full_names.find? (fun p => p.1 == mn) with
      | some p =>
        simp only [validMatchesLoop, h, if_true, hf]
        refine List.pairwise_cons.mpr ⟨?_, ih htail⟩
        intro y hy
        obtain ⟨_, ⟨p', hp', hs⟩, _⟩ := validMatchesLoop_mem threshold full_names rest y hy
        have := hhead p' hp'
        simp only
        omega
      | none =>
        simp only [validMatchesLoop, h, if_true, hf]
        exact ih htail
    · simp only [validMatchesLoop, h, if_false]
      exact ih htail

/-- C5: the fuzzy matcher returns at most 3 matches, each with
similarity score at or above the threshold, ordered highest score first,
and each returned match is paired with its confidence score and the
`Authorname` of a table row carrying that full-name string; no match
below the threshold is ever returned.  The statement is universal in the
(external) similarity scorer. -/
theorem claim_C5 (scorer : String → String → Nat) (target_name : String)
    (table : List Row) (threshold : Nat) :
    (find_closest_author_match scorer target_name table threshold).length ≤ 3 ∧
    (∀ m ∈ find_closest_author_match scorer target_name table threshold,
      threshold ≤ m.2.1) ∧
    (find_closest_author_match scorer target_name table threshold).Pairwise
      (fun x y => y.2.1 ≤ x.2.1) ∧
    (∀ m ∈ find_closest_author_match scorer target_name table threshold,
      ∃ r ∈ table, m.1 = r.Authorname ∧ m.2.2 = full_name_of r) := by
  have hlen : (find_closest_author_match scorer target_name table threshold).length ≤ 3 := by
    unfold find_closest_author_match
    calc (validMatchesLoop threshold _ _).length
        ≤ (extract scorer target_name _ 3).length := validMatchesLoop_length_le _ _ _
      _ ≤ 3 := by
        unfold extract
        exact List.length_take_le _ _
  have hsorted : (extract scorer target_name
      ((table.map (fun row => (full_name_of row, row.Authorname))).map (fun p => p.1)) 3).Pairwise
      (fun p q => q.2 ≤ p.2) := by
    unfold extract
    refine List.Pairwise.sublist (List.take_sublist _ _) ?_
    exact List.sorted_insertionSort scoreDesc _
  refine ⟨hlen, ?_, ?_, ?_⟩
  · intro m hm
    exact (validMatchesLoop_mem _ _ _ m hm).1
  · unfold find_closest_author_match
    exact validMatchesLoop_pairwise _ _ _ hsorted
  · intro m hm
    obtain ⟨_, _, q, hq, hmq⟩ := validMatchesLoop_mem _ _ _ m hm
    obtain ⟨r, hr, hqr⟩ := List.mem_map.mp hq
    refine ⟨r, hr, ?_, ?_⟩
    · rw [hmq, ← hqr]
    · rw [hmq, ← hqr]

/-- Witness for C5 at a concrete scorer and table: at most three
matches come back. -/
theorem claim_C5_witness :
    (find_closest_author_match (fun _ c => c.length) ("J Smith")
      [{ Authorname := "Smith, J.", Firstname := "John", Lastname := "Smith",
         ORCID := "", Email := "", Affiliations := [], Order := 0 },
       { Authorname := "Smythe, J.", Firstname := "Jane", Lastname := "Smythe",
         ORCID := "", Email := "", Affiliations := [], Order := 0 }] 70).length ≤ 3 :=
  (claim_C5 (fun _ c => c.length) ("J Smith")
    [{ Authorname := "Smith, J.", Firstname := "John", Lastname := "Smith",
       ORCID := "", Email := "", Affiliations := [], Order := 0 },
     { Authorname := "Smythe, J.", Firstname := "Jane", Lastname := "Smythe",
       ORCID := "", Email := "", Affiliations := [], Order := 0 }] 70).1

/-! ## Order assignment (authors.py lines 207-311) -/

/-- `table['Order'][table['Authorname'] == an] = c`. -/
def setOrder (t : List Row) (an : String) (c : Nat) : List Row :=
  t.map (fun r => if r.Authorname = an then { r with Order := c } else r)

/-- Tier-1 assignment loop (lines 210-223): resolve each first-tier name
in file order; on failure `sys.exit(1)` (modelled by `Except.error 1`);
on success stamp the matching rows with the running counter. -/
def assignTier1 : List String → List Row → Nat → Except Nat (List Row × Nat)
  | [], t, c => .ok (t, c)
  | author_name :: rest, t, c =>
    match find_author_name_in_table author_name t with
    | none => .error 1
    | some a =>
      if t.any (fun r => r.Authorname == a) then
        assignTier1 rest (setOrder t a c) (c + 1)
      else .error 1

/-- Tier-2 assignment loop (lines 293-297): the counter advances only
when some row actually matches. -/
def assignTier2 : List Row → List (String × String) → Nat → List Row × Nat
  | t, [], c => (t, c)
  | t, (an, _) :: rest, c =>
    if t.any (fun r => r.Authorname == an) then
      assignTier2 (setOrder t an c) rest (c + 1)
    else
      assignTier2 t rest c

/-- Tier-3 assignment loop (lines 308-311): the counter advances on
every entry. -/
def assignTier3 : List Row → List (String × String) → Nat → List Row × Nat
  | t, [], c => (t, c)
  | t, (an, _) :: rest, c => assignTier3 (setOrder t an c) rest (c + 1)

/-- The final `Order` an authorname `a` holds after one of the
assignment loops has run over `pairs` with starting counter `c`,
starting from a current value `d`. -/
def orderAfter : List (String × String) → Nat → String → Nat → Nat
  | [], _, _, d => d
  | (an, _) :: rest, c, a, d => orderAfter rest (c + 1) a (if a = an then c else d)

/-- Membership test used by the loops, phrased via the authorname column. -/
theorem any_authorname_eq (t : List Row) (a : String) :
    (t.any (fun r => r.Authorname == a)) = true ↔ a ∈ t.map (fun r => r.Authorname) := by
  simp only [List.any_eq_true, List.mem_map, beq_iff_eq]

theorem setOrder_map_authorname (t : List Row) (an : String) (c : Nat) :
    (setOrder t an c).map (fun r => r.Authorname) = t.map (fun r => r.Authorname) := by
  unfold setOrder
  rw [List.map_map]
  apply List.map_congr_left
  intro r _
  by_cases h : r.Authorname = an
  · simp [h]
  · simp [h]

theorem setOrder_mem_order (t : List Row) (a : String) (c : Nat) (r : Row)
    (hr : r ∈ setOrder t a c) (ha : r.Authorname = a) : r.Order = c := by
  obtain ⟨s, _, hse⟩ := List.mem_map.mp hr
  by_cases hsa : s.Authorname = a
  · rw [if_pos hsa] at hse
    rw [← hse]
  · rw [if_neg hsa] at hse
    rw [← hse] at ha
    exact absurd ha hsa

theorem setOrder_mem_of_ne (t : List Row) (a : String) (c : Nat) (r : Row)
    (hr : r ∈ setOrder t a c) (ha : r.Authorname ≠ a) : r ∈ t := by
  obtain ⟨s, hs, hse⟩ := List.mem_map.mp hr
  by_cases hsa : s.Authorname = a
  · rw [if_pos hsa] at hse
    rw [← hse] at ha
    exact absurd hsa ha
  · rw [if_neg hsa] at hse
    rw [← hse]
    exact hs

/-- The name resolver only reads the name columns, so stamping orders
does not change its result. -/
theorem searchRows_setOrder (parts : List String) (i : Nat) (a : String) (c : Nat) :
    ∀ t : List Row, searchRows parts i (setOrder t a c) = searchRows parts i t := by
  intro t
  induction t with
  | nil => rfl
  | cons row rest ih =>
    by_cases h : row.Authorname = a
    · simp only [setOrder, List.map_cons, if_pos h]
      show searchRows parts i ({ row with Order := c } :: _) = _
      simp only [searchRows]
      have hm : rowMatchesAt parts i { row with Order := c } = rowMatchesAt parts i row := rfl
      rw [hm]
      by_cases hmm : rowMatchesAt parts i row = true
      · simp [hmm]
      · simp only [Bool.not_eq_true] at hmm
        simp only [hmm, Bool.false_eq_true, if_false]
        exact ih
    · simp only [setOrder, List.map_cons, if_neg h]
      show searchRows parts i (row :: _) = _
      simp only [searchRows]
      by_cases hmm : rowMatchesAt parts i row = true
      · simp [hmm]
      · simp only [Bool.not_eq_true] at hmm
        simp only [hmm, Bool.false_eq_true, if_false]
        exact ih

theorem trySplits_setOrder (parts : List String) (t : List Row) (a : String) (c : Nat) :
    ∀ is, trySplits parts (setOrder t a c) is = trySplits parts t is := by
  intro is
  induction is with
  | nil => rfl
  | cons i rest ih =>
    simp only [trySplits, searchRows_setOrder]
    cases searchRows parts i t with
    | some b => rfl
    | none => exact ih

theorem find_author_setOrder (n : String) (t : List Row) (a : String) (c : Nat) :
    find_author_name_in_table n (setOrder t a c) = find_author_name_in_table n t := by
  unfold find_author_name_in_table
  by_cases hl : (pyWords (pyStrip n)).length < 2
  · simp [hl]
  · simp only [hl, if_false]
    exact trySplits_setOrder _ _ _ _ _

theorem find_author_mem (n : String) (t : List Row) (a : String)
    (h : find_author_name_in_table n t = some a) : a ∈ t.map (fun r => r.Authorname) := by
  unfold find_author_name_in_table at h
  by_cases hl : (pyWords (pyStrip n)).length < 2
  · simp [hl] at h
  · simp only [hl, if_false] at h
    obtain ⟨i, _, _, hs, _⟩ := trySplits_range'_eq_some _ _ _ _ _ h
    obtain ⟨t₁, r, t₂, hsplit, _, ha, _⟩ := searchRows_eq_some _ _ _ _ hs
    rw [hsplit, ha]
    exact List.mem_map_of_mem _ (by simp)

/-! ## Characterization of the assignment loops -/

theorem row_eta_order (r : Row) : ({ r with Order := r.Order } : Row) = r := rfl

theorem assignTier3_eq : ∀ (pairs : List (String × String)) (t : List Row) (c : Nat),
    assignTier3 t pairs c =
      (t.map (fun r => { r with Order := orderAfter pairs c r.Authorname r.Order }),
        c + pairs.length) := by
  intro pairs
  induction pairs with
  | nil =>
    intro t c
    simp only [assignTier3, orderAfter, List.length_nil, Nat.add_zero]
    have h : (fun r : Row => { r with Order := r.Order }) = fun r => r := rfl
    rw [h, List.map_id']
  | cons hd rest ih =>
    intro t c
    obtain ⟨an, l⟩ := hd
    simp only [assignTier3]
    rw [ih]
    unfold setOrder
    rw [List.map_map]
    have hf : ((fun r : Row => { r with Order := orderAfter rest (c + 1) r.Authorname r.Order }) ∘
        (fun r : Row => if r.Authorname = an then { r with Order := c } else r)) =
        fun r : Row => { r with Order := orderAfter ((an, l) :: rest) c r.Authorname r.Order } := by
      funext r
      by_cases h : r.Authorname = an
      · simp [Function.comp, h, orderAfter]
      · simp [Function.comp, h, orderAfter]
    rw [hf]
    have harith : c + 1 + rest.length = c + ((an, l) :: rest).length := by
      simp [List.length_cons]; omega
    rw [harith]

theorem assignTier2_eq : ∀ (pairs : List (String × String)) (t : List Row) (c : Nat),
    (∀ p ∈ pairs, p.1 ∈ t.map (fun r => r.Authorname)) →
    assignTier2 t pairs c =
      (t.map (fun r => { r with Order := orderAfter pairs c r.Authorname r.Order }),
        c + pairs.length) := by
  intro pairs
  induction pairs with
  | nil =>
    intro t c _
    simp only [assignTier2, orderAfter, List.length_nil, Nat.add_zero]
    have h : (fun r : Row => { r with Order := r.Order }) = fun r => r := rfl
    rw [h, List.map_id']
  | cons hd rest ih =>
    intro t c hpres
    obtain ⟨an, l⟩ := hd
    have hany : t.any (fun r => r.Authorname == an) = true :=
      (any_authorname_eq t an).mpr (hpres (an, l) (List.mem_cons_self _ _))
    simp only [assignTier2, hany, if_true]
    have hpres' : ∀ p ∈ rest, p.1 ∈ (setOrder t an c).map (fun r => r.Authorname) := by
      intro p hp
      rw [setOrder_map_authorname]
      exact hpres p (List.mem_cons_of_mem _ hp)
    rw [ih (setOrder t an c) (c + 1) hpres']
    unfold setOrder
    rw [List.map_map]
    have hf : ((fun r : Row => { r with Order := orderAfter rest (c + 1) r.Authorname r.Order }) ∘
        (fun r : Row => if r.Authorname = an then { r with Order := c } else r)) =
        fun r : Row => { r with Order := orderAfter ((an, l) :: rest) c r.Authorname r.Order } := by
      funext r
      by_cases h : r.Authorname = an
      · simp [Function.comp, h, orderAfter]
      · simp [Function.comp, h, orderAfter]
    rw [hf]
    have harith : c + 1 + rest.length = c + ((an, l) :: rest).length := by
      simp [List.length_cons]; omega
    rw [harith]

theorem orderAfter_not_mem : ∀ (pairs : List (String × String)) (c : Nat) (a : String) (d : Nat),
    a ∉ pairs.map Prod.fst → orderAfter pairs c a d = d := by
  intro pairs
  induction pairs with
  | nil => intro c a d _; rfl
  | cons hd rest ih =>
    intro c a d hmem
    obtain ⟨an, l⟩ := hd
    simp only [List.map_cons, List.mem_cons, not_or] at hmem
    simp only [orderAfter, if_neg hmem.1]
    exact ih (c + 1) a d hmem.2

theorem orderAfter_mem_bounds : ∀ (pairs : List (String × String)) (c : Nat) (a : String) (d : Nat),
    a ∈ pairs.map Prod.fst →
    c ≤ orderAfter pairs c a d ∧ orderAfter pairs c a d < c + pairs.length := by
  intro pairs
  induction pairs with
  | nil => intro c a d h; simp at h
  | cons hd rest ih =>
    intro c a d hmem
    obtain ⟨an, l⟩ := hd
    by_cases hm : a ∈ rest.map Prod.fst
    · have := ih (c + 1) a (if a = an then c else d) hm
      simp only [orderAfter]
      simp only [List.length_cons]
      omega
    · have ha : a = an := by
        simp only [List.map_cons, List.mem_cons] at hmem
        exact hmem.resolve_right hm
      simp only [orderAfter, if_pos ha, orderAfter_not_mem rest (c + 1) a c hm,
        List.length_cons]
      omega

/-- In a list of `(Authorname, Lastname)` pairs sorted by
`Lastname.upper()`, an authorname whose (consistent) key is strictly
smaller ends with a strictly smaller assigned order. -/
theorem orderAfter_lt : ∀ (pairs : List (String × String)) (a1 a2 l1 l2 : String),
    pairs.Pairwise pairKeyLe →
    a1 ∈ pairs.map Prod.fst → a2 ∈ pairs.map Prod.fst →
    (∀ p ∈ pairs, p.1 = a1 → p.2 = l1) →
    (∀ p ∈ pairs, p.1 = a2 → p.2 = l2) →
    upperKeyLt l1 l2 →
    ∀ (c d1 d2 : Nat), orderAfter pairs c a1 d1 < orderAfter pairs c a2 d2 := by
  intro pairs
  induction pairs with
  | nil =>
    intro a1 a2 l1 l2 _ h1 _ _ _ _
    simp at h1
  | cons hd rest ih =>
    intro a1 a2 l1 l2 hsorted h1 h2 hk1 hk2 hlt c d1 d2
    obtain ⟨an, l⟩ := hd
    have hhead := (List.pairwise_cons.mp hsorted).1
    have htail := (List.pairwise_cons.mp hsorted).2
    simp only [orderAfter]
    by_cases m1 : a1 ∈ rest.map Prod.fst
    · by_cases m2 : a2 ∈ rest.map Prod.fst
      · exact ih a1 a2 l1 l2 htail m1 m2
          (fun p hp => hk1 p (List.mem_cons_of_mem _ hp))
          (fun p hp => hk2 p (List.mem_cons_of_mem _ hp)) hlt (c + 1) _ _
      · have ha2 : a2 = an := by
          simp only [List.map_cons, List.mem_cons] at h2
          exact h2.resolve_right m2
        have hl2 : l = l2 := hk2 (an, l) (List.mem_cons_self _ _) ha2.symm
        obtain ⟨q, hq, hq1⟩ := List.mem_map.mp m1
        have hql : q.2 = l1 := hk1 q (List.mem_cons_of_mem _ hq) hq1
        have hle : upperKeyLe l q.2 = true := hhead q hq
        rw [hql, hl2] at hle
        rw [hlt.2] at hle
        simp at hle
    · have ha1 : a1 = an := by
        simp only [List.map_cons, List.mem_cons] at h1
        exact h1.resolve_right m1
      have hv1 : orderAfter rest (c + 1) a1 (if a1 = an then c else d1) = c := by
        rw [orderAfter_not_mem rest (c + 1) a1 _ m1, if_pos ha1]
      rw [hv1]
      by_cases m2 : a2 ∈ rest.map Prod.fst
      · have := (orderAfter_mem_bounds rest (c + 1) a2 (if a2 = an then c else d2) m2).1
        omega
      · have ha2 : a2 = an := by
          simp only [List.map_cons, List.mem_cons] at h2
          exact h2.resolve_right m2
        have hl1 : l = l1 := hk1 (an, l) (List.mem_cons_self _ _) ha1.symm
        have hl2 : l = l2 := hk2 (an, l) (List.mem_cons_self _ _) ha2.symm
        have hfalse : upperKeyLe l2 l1 = false := hlt.2
        rw [← hl1, ← hl2] at hfalse
        have hrefl : upperKeyLe l l = true := charListLe_refl _
        rw [hfalse] at hrefl
        simp at hrefl

/-- Rows stamped by a loop characterized through `orderAfter` over a
sorted pair list are ordered consistently with the (consistent) upper-cased
last-name keys. -/
theorem sortedAssign_mono (t : List Row) (pairs : List (String × String)) (c : Nat)
    (hsorted : pairs.Pairwise pairKeyLe)
    (hlink : ∀ p ∈ pairs, ∀ r ∈ t, r.Authorname = p.1 → r.Lastname = p.2) :
    ∀ r1 ∈ t.map (fun r => { r with Order := orderAfter pairs c r.Authorname r.Order }),
    ∀ r2 ∈ t.map (fun r => { r with Order := orderAfter pairs c r.Authorname r.Order }),
      r1.Authorname ∈ pairs.map Prod.fst → r2.Authorname ∈ pairs.map Prod.fst →
      upperKeyLt r1.Lastname r2.Lastname → r1.Order < r2.Order := by
  intro r1 hr1 r2 hr2 m1 m2 hlt
  obtain ⟨s1, hs1, he1⟩ := List.mem_map.mp hr1
  obtain ⟨s2, hs2, he2⟩ := List.mem_map.mp hr2
  subst he1
  subst he2
  have hk1 : ∀ p ∈ pairs, p.1 = s1.Authorname → p.2 = s1.Lastname := by
    intro p hp hpa
    exact (hlink p hp s1 hs1 hpa.symm).symm
  have hk2 : ∀ p ∈ pairs, p.1 = s2.Authorname → p.2 = s2.Lastname := by
    intro p hp hpa
    exact (hlink p hp s2 hs2 hpa.symm).symm
  exact orderAfter_lt pairs s1.Authorname s2.Authorname s1.Lastname s2.Lastname
    hsorted m1 m2 hk1 hk2 hlt c s1.Order s2.Order

/-- `sorted(infrastructure_found, key=lambda x: x[1].upper())` (line 291). -/
def infrastructure_sorted (found : List (String × String)) : List (String × String) :=
  List.insertionSort pairKeyLe found

/-- Tier-2 stage: sort the collected infrastructure matches by last name
and assign order numbers (lines 290-297). -/
def tier2Assign (t : List Row) (found : List (String × String)) (c : Nat) : List Row × Nat :=
  assignTier2 t (infrastructure_sorted found) c

/-- The `(Authorname, Lastname)` pairs of the rows still unassigned
(`Order == 99999`, lines 300-303). -/
def remainingPairs (t : List Row) : List (String × String) :=
  (t.filter (fun r => r.Order == 99999)).map (fun r => (r.Authorname, r.Lastname))

/-- Tier-3 stage: sort the remaining authors by last name and assign the
remaining order numbers (lines 299-311). -/
def tier3Assign (t : List Row) (c : Nat) : List Row × Nat :=
  assignTier3 t (List.insertionSort pairKeyLe (remainingPairs t)) c

/-- C3: within tier 2 and, separately, within tier 3, assigned `Order`
values ascend with the case-insensitive (upper-cased) last-name order:
whenever two rows were assigned in the same tier and one's last name
compares strictly smaller case-insensitively, that row receives the
strictly smaller `Order` — independent of the raw input order of the
collected infrastructure matches.  The hypotheses record pipeline
invariants: every collected pair names a table row, its recorded last
name is that row's `Lastname`, and (after the merge step) authornames
are unique. -/
theorem claim_C3 (t : List Row) (found : List (String × String)) (c c' : Nat)
    (hpres : ∀ p ∈ found, p.1 ∈ t.map (fun r => r.Authorname))
    (hlink : ∀ p ∈ found, ∀ r ∈ t, r.Authorname = p.1 → r.Lastname = p.2)
    (hnodup : (t.map (fun r => r.Authorname)).Nodup) :
    (∀ r1 ∈ (tier2Assign t found c).1, ∀ r2 ∈ (tier2Assign t found c).1,
      r1.Authorname ∈ found.map Prod.fst → r2.Authorname ∈ found.map Prod.fst →
      upperKeyLt r1.Lastname r2.Lastname → r1.Order < r2.Order) ∧
    (∀ r1 ∈ (tier3Assign t c').1, ∀ r2 ∈ (tier3Assign t c').1,
      r1.Authorname ∈ (remainingPairs t).map Prod.fst →
      r2.Authorname ∈ (remainingPairs t).map Prod.fst →
      upperKeyLt r1.Lastname r2.Lastname → r1.Order < r2.Order) := by
  constructor
  · have hpres' : ∀ p ∈ infrastructure_sorted found, p.1 ∈ t.map (fun r => r.Authorname) := by
      intro p hp
      exact hpres p ((List.mem_insertionSort pairKeyLe).mp hp)
    have hchar := assignTier2_eq (infrastructure_sorted found) t c hpres'
    have hsorted : (infrastructure_sorted found).Pairwise pairKeyLe :=
      List.sorted_insertionSort pairKeyLe found
    have hlink' : ∀ p ∈ infrastructure_sorted found, ∀ r ∈ t,
        r.Authorname = p.1 → r.Lastname = p.2 := by
      intro p hp
      exact hlink p ((List.mem_insertionSort pairKeyLe).mp hp)
    intro r1 hr1 r2 hr2 m1 m2 hlt
    have hperm : List.Perm ((infrastructure_sorted found).map Prod.fst)
        (found.map Prod.fst) :=
      (List.perm_insertionSort pairKeyLe found).map Prod.fst
    have m1' : r1.Authorname ∈ (infrastructure_sorted found).map Prod.fst :=
      hperm.mem_iff.mpr m1
    have m2' : r2.Authorname ∈ (infrastructure_sorted found).map Prod.fst :=
      hperm.mem_iff.mpr m2
    unfold tier2Assign at hr1 hr2
    rw [hchar] at hr1 hr2
    exact sortedAssign_mono t (infrastructure_sorted found) c hsorted hlink'
      r1 hr1 r2 hr2 m1' m2' hlt
  · have hlink3 : ∀ p ∈ remainingPairs t, ∀ r ∈ t, r.Authorname = p.1 → r.Lastname = p.2 := by
      intro p hp r hr hra
      obtain ⟨s, hsf, hse⟩ := List.mem_map.mp hp
      have hst : s ∈ t := List.mem_of_mem_filter hsf
      have hfs : r.Authorname = s.Authorname := by
        rw [hra, ← hse]
      have hrs : r = s := List.inj_on_of_nodup_map hnodup hr hst hfs
      rw [hrs, ← hse]
    have hsp : List.insertionSort pairKeyLe (remainingPairs t) = infrastructure_sorted (remainingPairs t) := rfl
    have hchar := assignTier3_eq (infrastructure_sorted (remainingPairs t)) t c'
    have hsorted : (infrastructure_sorted (remainingPairs t)).Pairwise pairKeyLe :=
      List.sorted_insertionSort pairKeyLe (remainingPairs t)
    have hlink' : ∀ p ∈ infrastructure_sorted (remainingPairs t), ∀ r ∈ t,
        r.Authorname = p.1 → r.Lastname = p.2 := by
      intro p hp
      exact hlink3 p ((List.mem_insertionSort pairKeyLe).mp hp)
    intro r1 hr1 r2 hr2 m1 m2 hlt
    have hperm : List.Perm ((infrastructure_sorted (remainingPairs t)).map Prod.fst)
        ((remainingPairs t).map Prod.fst) :=
      (List.perm_insertionSort pairKeyLe (remainingPairs t)).map Prod.fst
    have m1' : r1.Authorname ∈ (infrastructure_sorted (remainingPairs t)).map Prod.fst :=
      hperm.mem_iff.mpr m1
    have m2' : r2.Authorname ∈ (infrastructure_sorted (remainingPairs t)).map Prod.fst :=
      hperm.mem_iff.mpr m2
    unfold tier3Assign at hr1 hr2
    rw [hsp, hchar] at hr1 hr2
    exact sortedAssign_mono t (infrastructure_sorted (remainingPairs t)) c' hsorted hlink'
      r1 hr1 r2 hr2 m1' m2' hlt

/-- Witness for C3: a concrete two-row table with the infrastructure
matches collected in reverse alphabetical order; the row with the
alphabetically smaller last name still gets the smaller order. -/
theorem claim_C3_witness :
    ({ Authorname := "Adams, A.", Firstname := "Ann", Lastname := "Adams",
       ORCID := "", Email := "", Affiliations := [], Order := 5 } : Row).Order <
    ({ Authorname := "Brown, B.", Firstname := "Bob", Lastname := "Brown",
       ORCID := "", Email := "", Affiliations := [], Order := 6 } : Row).Order :=
  (claim_C3
    [{ Authorname := "Brown, B.", Firstname := "Bob", Lastname := "Brown",
       ORCID := "", Email := "", Affiliations := [], Order := 99999 },
     { Authorname := "Adams, A.", Firstname := "Ann", Lastname := "Adams",
       ORCID := "", Email := "", Affiliations := [], Order := 99999 }]
    [("Brown, B.", "Brown"), ("Adams, A.", "Adams")] 5 0
    (by decide) (by decide) (by decide)).1
    { Authorname := "Adams, A.", Firstname := "Ann", Lastname := "Adams",
      ORCID := "", Email := "", Affiliations := [], Order := 5 } (by decide)
    { Authorname := "Brown, B.", Firstname := "Bob", Lastname := "Brown",
      ORCID := "", Email := "", Affiliations := [], Order := 6 } (by decide)
    (by decide) (by decide) (by decide)

/-! ## Tier 1: behaviour of `assignTier1` -/

theorem assignTier1_error (names : List String) : ∀ (t : List Row) (c : Nat),
    (∃ n ∈ names, find_author_name_in_table n t = none) →
    assignTier1 names t c = .error 1 := by
  induction names with
  | nil =>
    intro t c h
    obtain ⟨n, hn, _⟩ := h
    simp at hn
  | cons m rest ih =>
    intro t c h
    cases ha : find_author_name_in_table m t with
    | none => simp [assignTier1, ha]
    | some a =>
      by_cases hany : t.any (fun r => r.Authorname == a) = true
      · simp only [assignTier1, ha, hany, if_true]
        obtain ⟨n, hn, hnone⟩ := h
        rcases List.mem_cons.mp hn with he | hm
        · rw [he, ha] at hnone
          exact absurd hnone (by simp)
        · exact ih (setOrder t a c) (c + 1)
            ⟨n, hm, by rw [find_author_setOrder]; exact hnone⟩
      · simp only [Bool.not_eq_true] at hany
        simp [assignTier1, ha, hany]

theorem assignTier1_ok (names : List String) : ∀ (t : List Row) (c : Nat),
    (∀ n ∈ names, (find_author_name_in_table n t).isSome = true) →
    (names.map (fun n => find_author_name_in_table n t)).Nodup →
    ∃ t', assignTier1 names t c = .ok (t', c + names.length) ∧
      (∀ i (hi : i < names.length), ∀ r ∈ t',
        some r.Authorname = find_author_name_in_table (names.get ⟨i, hi⟩) t →
        r.Order = c + i) ∧
      (∀ r ∈ t', (∀ i (hi : i < names.length),
        some r.Authorname ≠ find_author_name_in_table (names.get ⟨i, hi⟩) t) → r ∈ t) := by
  induction names with
  | nil =>
    intro t c _ _
    refine ⟨t, by simp [assignTier1], ?_, ?_⟩
    · intro i hi
      exact absurd hi (by simp)
    · intro r hr _
      exact hr
  | cons n rest ih =>
    intro t c hres hnodup
    have hsome := hres n (List.mem_cons_self _ _)
    obtain ⟨a, ha⟩ := Option.isSome_iff_exists.mp hsome
    have hmem : a ∈ t.map (fun r => r.Authorname) := find_author_mem n t a ha
    have hany : t.any (fun r => r.Authorname == a) = true := (any_authorname_eq t a).mpr hmem
    have hstep : assignTier1 (n :: rest) t c = assignTier1 rest (setOrder t a c) (c + 1) := by
      simp [assignTier1, ha, hany]
    have hfinv : ∀ m, find_author_name_in_table m (setOrder t a c) =
        find_author_name_in_table m t := fun m => find_author_setOrder m t a c
    have hres' : ∀ m ∈ rest, (find_author_name_in_table m (setOrder t a c)).isSome = true := by
      intro m hm
      rw [hfinv]
      exact hres m (List.mem_cons_of_mem _ hm)
    have hnc : (find_author_name_in_table n t ::
        rest.map (fun m => find_author_name_in_table m t)).Nodup := by
      simpa using hnodup
    have hnotmem : find_author_name_in_table n t ∉
        rest.map (fun m => find_author_name_in_table m t) := (List.nodup_cons.mp hnc).1
    have hmapeq : rest.map (fun m => find_author_name_in_table m (setOrder t a c)) =
        rest.map (fun m => find_author_name_in_table m t) := by
      apply List.map_congr_left
      intro m _
      exact hfinv m
    have hnodup' : (rest.map (fun m => find_author_name_in_table m (setOrder t a c))).Nodup := by
      rw [hmapeq]
      exact (List.nodup_cons.mp hnc).2
    obtain ⟨t', heq, hord, hkeep⟩ := ih (setOrder t a c) (c + 1) hres' hnodup'
    refine ⟨t', ?_, ?_, ?_⟩
    · rw [hstep, heq]
      have h2 : c + 1 + rest.length = c + (n :: rest).length := by
        simp [List.length_cons]
        omega
      rw [h2]
    · intro i hi r hr hsome'
      cases i with
      | zero =>
        have ha0 : find_author_name_in_table ((n :: rest).get ⟨0, hi⟩) t = some a := ha
        rw [ha0] at hsome'
        have hra : r.Authorname = a := Option.some.inj hsome'
        by_cases hmatch : ∀ j (hj : j < rest.length),
            some r.Authorname ≠ find_author_name_in_table (rest.get ⟨j, hj⟩) (setOrder t a c)
        · have hrt1 : r ∈ setOrder t a c := hkeep r hr hmatch
          have hrc : r.Order = c := setOrder_mem_order t a c r hrt1 hra
          rw [hrc]
          omega
        · push_neg at hmatch
          obtain ⟨j, hj, hje⟩ := hmatch
          rw [hfinv] at hje
          have hmm : find_author_name_in_table (rest.get ⟨j, hj⟩) t ∈
              rest.map (fun m => find_author_name_in_table m t) :=
            List.mem_map_of_mem _ (rest.get_mem j hj)
          have heqf : find_author_name_in_table n t =
              find_author_name_in_table (rest.get ⟨j, hj⟩) t := by
            rw [ha, ← hje, hra]
          rw [heqf] at hnotmem
          exact absurd hmm hnotmem
      | succ j =>
        have hj : j < rest.length := by
          simp only [List.length_cons] at hi
          omega
        have := hord j hj r hr (by rw [hfinv]; exact hsome')
        rw [this]
        omega
    · intro r hr hnone
      have hmatch : ∀ j (hj : j < rest.length),
          some r.Authorname ≠ find_author_name_in_table (rest.get ⟨j, hj⟩) (setOrder t a c) := by
        intro j hj
        rw [hfinv]
        exact hnone (j + 1) (by simp only [List.length_cons]; omega)
      have hrt1 : r ∈ setOrder t a c := hkeep r hr hmatch
      have hne : r.Authorname ≠ a := by
        intro he
        have h0 : (0 : Nat) < (n :: rest).length := by simp
        have ha0 : find_author_name_in_table ((n :: rest).get ⟨0, h0⟩) t = some a := ha
        exact hnone 0 h0 (by rw [ha0, he])
      exact setOrder_mem_of_ne t a c r hrt1 hne

/-- Counterexample to C2 as stated: a first-tier file whose two lines
both resolve to the same table row.  Every name resolves, `k = 2`, yet
after the tier-1 loop no resolved row carries `Order` 1 — the single
matching row was stamped 1 and then overwritten with 2 — so the rows
resolved from the first-tier names do not receive the values `1..k` in
file sequence. -/
theorem claim_C2_counterexample :
    (∀ n ∈ ["John Smith", "John Smith"],
      (find_author_name_in_table n
        [{ Authorname := "Smith, J.", Firstname := "John", Lastname := "Smith",
           ORCID := "", Email := "", Affiliations := [], Order := 99999 }]).isSome = true) ∧
    assignTier1 ["John Smith", "John Smith"]
      [{ Authorname := "Smith, J.", Firstname := "John", Lastname := "Smith",
         ORCID := "", Email := "", Affiliations := [], Order := 99999 }] 1 =
      .ok ([{ Authorname := "Smith, J.", Firstname := "John", Lastname := "Smith",
              ORCID := "", Email := "", Affiliations := [], Order := 2 }], 3) ∧
    ∀ r ∈ [({ Authorname := "Smith, J.", Firstname := "John", Lastname := "Smith",
              ORCID := "", Email := "", Affiliations := [], Order := 2 } : Row)],
      r.Order ≠ 1 := by
  refine ⟨by decide, by rfl, by decide⟩

/-- C2 (amended): provided every first-tier name resolves to a table row
AND no two first-tier lines resolve to the same `Authorname`, the rows
resolved from those names receive `Order` values `1..k` in exactly the
file sequence (`k` = length of the first-tier list); and if any
first-tier name fails to resolve, the tier-1 stage exits with status 1
(`sys.exit(1)`). -/
theorem claim_C2_amended (names : List String) (t : List Row) :
    ((∀ n ∈ names, (find_author_name_in_table n t).isSome = true) →
      (names.map (fun n => find_author_name_in_table n t)).Nodup →
      ∃ t', assignTier1 names t 1 = .ok (t', 1 + names.length) ∧
        ∀ i (hi : i < names.length), ∀ r ∈ t',
          some r.Authorname = find_author_name_in_table (names.get ⟨i, hi⟩) t →
          r.Order = 1 + i) ∧
    ((∃ n ∈ names, find_author_name_in_table n t = none) →
      assignTier1 names t 1 = .error 1) := by
  constructor
  · intro h1 h2
    obtain ⟨t', heq, hord, _⟩ := assignTier1_ok names t 1 h1 h2
    exact ⟨t', heq, hord⟩
  · intro h
    exact assignTier1_error names t 1 h

/-- Witness for the amended C2 at a concrete two-name, two-row input:
both hypotheses are discharged by evaluation. -/
theorem claim_C2_amended_witness :
    ∃ t', assignTier1 ["John Smith", "Jane Doe"]
        [{ Authorname := "Smith, J.", Firstname := "John", Lastname := "Smith",
           ORCID := "", Email := "", Affiliations := [], Order := 99999 },
         { Authorname := "Doe, J.", Firstname := "Jane", Lastname := "Doe",
           ORCID := "", Email := "", Affiliations := [], Order := 99999 }] 1 =
      Except.ok (t', 1 + (["John Smith", "Jane Doe"] : List String).length) ∧
      ∀ i (hi : i < (["John Smith", "Jane Doe"] : List String).length), ∀ r ∈ t',
        some r.Authorname =
          find_author_name_in_table ((["John Smith", "Jane Doe"] : List String).get ⟨i, hi⟩)
            [{ Authorname := "Smith, J.", Firstname := "John", Lastname := "Smith",
               ORCID := "", Email := "", Affiliations := [], Order := 99999 },
             { Authorname := "Doe, J.", Firstname := "Jane", Lastname := "Doe",
               ORCID := "", Email := "", Affiliations := [], Order := 99999 }] →
        r.Order = 1 + i :=
  (claim_C2_amended ["John Smith", "Jane Doe"]
    [{ Authorname := "Smith, J.", Firstname := "John", Lastname := "Smith",
       ORCID := "", Email := "", Affiliations := [], Order := 99999 },
     { Authorname := "Doe, J.", Firstname := "Jane", Lastname := "Doe",
       ORCID := "", Email := "", Affiliations := [], Order := 99999 }]).1
    (by decide) (by decide)

/-! ## `generate_numbered_affiliation_output` (authors.py lines 98-143) -/

/-- First pass (lines 104-110): build the affiliation → number mapping
in order of first appearance over the nested row/affiliation loops,
skipping blanks.  Python's insertion-ordered `dict` is modelled by an
association list; `next_number` is the explicit counter. -/
def affNumbersAux : List String → List (String × Nat) → Nat → List (String × Nat) × Nat
  | [], m, next => (m, next)
  | affl :: rest, m, next =>
    if affl ≠ "" ∧ affl ∉ m.map Prod.fst then
      affNumbersAux rest (m ++ [(affl, next)]) (next + 1)
    else
      affNumbersAux rest m next

/-- `affiliation_to_number` after the first pass, scanning the table row
by row and each row's affiliation slots in order. -/
def affiliation_to_number (t : List Row) : List (String × Nat) :=
  (affNumbersAux (t.flatMap (fun r => r.Affiliations)) [] 1).1

/-- `sorted(affiliation_to_number.items(), key=lambda x: x[1])` (line 141). -/
def sorted_affiliations (t : List Row) : List (String × Nat) :=
  List.insertionSort numLe (affiliation_to_number t)

/-- The legend lines of the affiliations file (lines 139-143). -/
def legendLines (t : List Row) : List String :=
  (sorted_affiliations t).map
    (fun p => "$^\x7b" ++ toString p.2 ++ "\x7d$ " ++ p.1 ++ " \\\\\n")

/-- Dictionary lookup `affiliation_to_number[affl]` (never fails on the
affiliations the writer visits; `0` is an arbitrary out-of-range default). -/
def lookupAffNumber (m : List (String × Nat)) (a : String) : Nat :=
  match m.find? (fun p => p.1 == a) with
  | some p => p.2
  | none => 0

/-- Model of Python `','.join(...)`. -/
def joinComma : List String → String
  | [] => ""
  | [s] => s
  | s :: ss => s ++ "," ++ joinComma ss

/-- One line of the alternative authors file (lines 113-136). -/
def altAuthorLine (include_orcid_links : Bool) (m : List (String × Nat)) (row : Row) : String :=
  let orcidPart :=
    if include_orcid_links = true ∧ row.ORCID ≠ "" then
      ("\\orcidlink\x7b") ++ row.ORCID ++ "\x7d"
    else ("")
  let affl_numbers :=
    (row.Affiliations.filter (fun a => a ≠ "")).map (fun a => toString (lookupAffNumber m a))
  if affl_numbers ≠ [] then
    orcidPart ++ row.Authorname ++ ",$^\x7b" ++ joinComma affl_numbers ++ "\x7d$\n"
  else
    orcidPart ++ row.Authorname ++ "\n"

/-- `generate_numbered_affiliation_output`: the lines written to the
authors file and to the affiliations (legend) file. -/
def generate_numbered_affiliation_output (t : List Row) (include_orcid_links : Bool) :
    List String × List String :=
  (t.map (altAuthorLine include_orcid_links (affiliation_to_number t)), legendLines t)

/-- Written from the spec's words, for the round-trip claim C6: the
distinct non-blank affiliations in order of first appearance, `seen`
being the already-numbered keys. -/
def firstAppearancesFrom (seen : List String) : List String → List String
  | [] => []
  | a :: rest =>
    if a = "" ∨ a ∈ seen then firstAppearancesFrom seen rest
    else a :: firstAppearancesFrom (a :: seen) rest

/-- Written from the spec's words: first-appearance order of the
distinct non-blank affiliations. -/
def firstAppearances (l : List String) : List String := firstAppearancesFrom [] l

/-- Written from the spec's words: number a key list `1, 2, 3, …` from `n`. -/
def numberFrom (n : Nat) : List String → List (String × Nat)
  | [] => []
  | a :: rest => (a, n) :: numberFrom (n + 1) rest

theorem firstAppearancesFrom_congr : ∀ (l s1 s2 : List String),
    (∀ x, x ∈ s1 ↔ x ∈ s2) → firstAppearancesFrom s1 l = firstAppearancesFrom s2 l := by
  intro l
  induction l with
  | nil => intro s1 s2 _; rfl
  | cons a rest ih =>
    intro s1 s2 h
    by_cases hc : a = "" ∨ a ∈ s1
    · have hc2 : a = "" ∨ a ∈ s2 := by
        rcases hc with hc | hc
        · exact Or.inl hc
        · exact Or.inr ((h a).mp hc)
      simp only [firstAppearancesFrom, if_pos hc, if_pos hc2]
      exact ih s1 s2 h
    · have hc2 : ¬ (a = "" ∨ a ∈ s2) := by
        intro hc2
        rcases hc2 with hc2 | hc2
        · exact hc (Or.inl hc2)
        · exact hc (Or.inr ((h a).mpr hc2))
      simp only [firstAppearancesFrom, if_neg hc, if_neg hc2]
      have h' : ∀ x, x ∈ a :: s1 ↔ x ∈ a :: s2 := by
        intro x
        simp only [List.mem_cons]
        constructor
        · rintro (hx | hx)
          · exact Or.inl hx
          · exact Or.inr ((h x).mp hx)
        · rintro (hx | hx)
          · exact Or.inl hx
          · exact Or.inr ((h x).mpr hx)
      rw [ih (a :: s1) (a :: s2) h']

theorem affNumbersAux_eq : ∀ (l : List String) (m : List (String × Nat)) (next : Nat),
    (affNumbersAux l m next).1 =
      m ++ numberFrom next (firstAppearancesFrom (m.map Prod.fst) l) := by
  intro l
  induction l with
  | nil => intro m next; simp [affNumbersAux, firstAppearancesFrom, numberFrom]
  | cons a rest ih =>
    intro m next
    by_cases hc : a ≠ "" ∧ a ∉ m.map Prod.fst
    · have hskip : ¬ (a = "" ∨ a ∈ m.map Prod.fst) := by
        intro h
        rcases h with h | h
        · exact hc.1 h
        · exact hc.2 h
      simp only [affNumbersAux, if_pos hc]
      rw [ih]
      have hmap : (m ++ [(a, next)]).map Prod.fst = m.map Prod.fst ++ [a] := by simp
      rw [hmap]
      have hcongr : firstAppearancesFrom (m.map Prod.fst ++ [a]) rest =
          firstAppearancesFrom (a :: m.map Prod.fst) rest := by
        apply firstAppearancesFrom_congr
        intro x
        simp [List.mem_append, List.mem_cons, or_comm]
      rw [hcongr]
      simp only [firstAppearancesFrom, if_neg hskip, numberFrom]
      simp [List.append_assoc]
    · have hskip : a = "" ∨ a ∈ m.map Prod.fst := by
        by_contra h
        push_neg at h
        exact hc ⟨h.1, h.2⟩
      simp only [affNumbersAux, if_neg hc]
      rw [ih]
      simp only [firstAppearancesFrom, if_pos hskip]

theorem firstAppearancesFrom_nodup : ∀ (l seen : List String),
    (firstAppearancesFrom seen l).Nodup ∧ ∀ x ∈ firstAppearancesFrom seen l, x ∉ seen := by
  intro l
  induction l with
  | nil => intro seen; simp [firstAppearancesFrom]
  | cons a rest ih =>
    intro seen
    by_cases hc : a = "" ∨ a ∈ seen
    · simp only [firstAppearancesFrom, if_pos hc]
      exact ih seen
    · simp only [firstAppearancesFrom, if_neg hc]
      obtain ⟨hnd, hnot⟩ := ih (a :: seen)
      push_neg at hc
      constructor
      · refine List.nodup_cons.mpr ⟨?_, hnd⟩
        intro hmem
        exact hnot a hmem (List.mem_cons_self _ _)
      · intro x hx
        rcases List.mem_cons.mp hx with hx | hx
        · rw [hx]; exact hc.2
        · intro hxs
          exact hnot x hx (List.mem_cons_of_mem _ hxs)

theorem firstAppearancesFrom_mem : ∀ (l seen : List String) (x : String),
    x ∈ firstAppearancesFrom seen l ↔ (x ≠ "" ∧ x ∈ l ∧ x ∉ seen) := by
  intro l
  induction l with
  | nil => intro seen x; simp [firstAppearancesFrom]
  | cons a rest ih =>
    intro seen x
    by_cases hc : a = "" ∨ a ∈ seen
    · simp only [firstAppearancesFrom, if_pos hc, ih, List.mem_cons]
      constructor
      · rintro ⟨h1, h2, h3⟩
        exact ⟨h1, Or.inr h2, h3⟩
      · rintro ⟨h1, h2 | h2, h3⟩
        · rcases hc with hc | hc
          · rw [h2] at h1; exact absurd hc h1
          · rw [h2] at h3; exact absurd hc h3
        · exact ⟨h1, h2, h3⟩
    · push_neg at hc
      have hskip : ¬ (a = "" ∨ a ∈ seen) := by
        intro h
        rcases h with h | h
        · exact hc.1 h
        · exact hc.2 h
      simp only [firstAppearancesFrom, if_neg hskip, List.mem_cons, ih]
      constructor
      · rintro (hx | ⟨h1, h2, h3⟩)
        · rw [hx]
          exact ⟨hc.1, Or.inl rfl, hc.2⟩
        · refine ⟨h1, Or.inr h2, ?_⟩
          intro hxs
          exact h3 (Or.inr hxs)
      · rintro ⟨h1, h2 | h2, h3⟩
        · exact Or.inl h2
        · by_cases hxa : x = a
          · exact Or.inl hxa
          · refine Or.inr ⟨h1, h2, ?_⟩
            intro hxs
            rcases hxs with h | h
            · exact hxa h
            · exact h3 h

theorem numberFrom_map_fst : ∀ (l : List String) (n : Nat),
    (numberFrom n l).map Prod.fst = l := by
  intro l
  induction l with
  | nil => intro n; rfl
  | cons a rest ih => intro n; simp [numberFrom, ih]

theorem numberFrom_length : ∀ (l : List String) (n : Nat),
    (numberFrom n l).length = l.length := by
  intro l
  induction l with
  | nil => intro n; rfl
  | cons a rest ih => intro n; simp [numberFrom, ih]

theorem numberFrom_map_snd : ∀ (l : List String) (n : Nat),
    (numberFrom n l).map Prod.snd = List.range' n l.length := by
  intro l
  induction l with
  | nil => intro n; rfl
  | cons a rest ih =>
    intro n
    simp only [numberFrom, List.map_cons, List.length_cons, List.range'_succ, ih]

theorem numberFrom_snd_ge : ∀ (l : List String) (n : Nat) (p : String × Nat),
    p ∈ numberFrom n l → n ≤ p.2 := by
  intro l
  induction l with
  | nil => intro n p h; simp [numberFrom] at h
  | cons a rest ih =>
    intro n p h
    rcases List.mem_cons.mp h with h | h
    · rw [h]
    · have := ih (n + 1) p h
      omega

theorem numberFrom_pairwise : ∀ (l : List String) (n : Nat),
    (numberFrom n l).Pairwise numLe := by
  intro l
  induction l with
  | nil => intro n; simp [numberFrom]
  | cons a rest ih =>
    intro n
    refine List.pairwise_cons.mpr ⟨?_, ih (n + 1)⟩
    intro p hp
    have := numberFrom_snd_ge rest (n + 1) p hp
    unfold numLe
    omega

/-- C6: the numbered-affiliation mapping gives each distinct non-blank
affiliation exactly one number; the numbers are `1, 2, 3, …` assigned in
order of first appearance scanning the table row by row; and the legend
list (sorted by assigned number) is the mapping itself, so the legend is
in ascending number order with no gaps. -/
theorem claim_C6 (t : List Row) :
    ((affiliation_to_number t).map Prod.fst).Nodup ∧
    (affiliation_to_number t).map Prod.fst =
      firstAppearances (t.flatMap (fun r => r.Affiliations)) ∧
    (affiliation_to_number t).map Prod.snd =
      List.range' 1 (affiliation_to_number t).length ∧
    (∀ a : String, (∃ num, (a, num) ∈ affiliation_to_number t) ↔
      (a ≠ "" ∧ a ∈ t.flatMap (fun r => r.Affiliations))) ∧
    sorted_affiliations t = affiliation_to_number t := by
  have hchar : affiliation_to_number t =
      numberFrom 1 (firstAppearances (t.flatMap (fun r => r.Affiliations))) := by
    unfold affiliation_to_number firstAppearances
    rw [affNumbersAux_eq]
    simp
  refine ⟨?_, ?_, ?_, ?_, ?_⟩
  · rw [hchar, numberFrom_map_fst]
    exact (firstAppearancesFrom_nodup _ []).1
  · rw [hchar, numberFrom_map_fst]
  · rw [hchar, numberFrom_map_snd, numberFrom_length]
  · intro a
    rw [hchar]
    constructor
    · rintro ⟨num, hmem⟩
      have : a ∈ (numberFrom 1 (firstAppearances (t.flatMap (fun r => r.Affiliations)))).map
          Prod.fst := List.mem_map_of_mem _ hmem
      rw [numberFrom_map_fst] at this
      have := (firstAppearancesFrom_mem _ [] a).mp this
      exact ⟨this.1, this.2.1⟩
    · rintro ⟨h1, h2⟩
      have hmem : a ∈ firstAppearances (t.flatMap (fun r => r.Affiliations)) :=
        (firstAppearancesFrom_mem _ [] a).mpr ⟨h1, h2, by simp⟩
      have : a ∈ (numberFrom 1 (firstAppearances (t.flatMap (fun r => r.Affiliations)))).map
          Prod.fst := by rw [numberFrom_map_fst]; exact hmem
      obtain ⟨p, hp, hpa⟩ := List.mem_map.mp this
      obtain ⟨x, y⟩ := p
      simp only at hpa
      rw [hpa] at hp
      exact ⟨y, hp⟩
  · unfold sorted_affiliations
    apply List.Sorted.insertionSort_eq
    rw [hchar]
    exact numberFrom_pairwise _ 1

/-- Witness for C6 at a concrete two-row table: the legend order equals
the first-appearance numbering. -/
theorem claim_C6_witness :
    sorted_affiliations
      [{ Authorname := "Smith, J.", Firstname := "John", Lastname := "Smith",
         ORCID := "", Email := "", Affiliations := ["Uni B", "Uni A"], Order := 1 },
       { Authorname := "Doe, J.", Firstname := "Jane", Lastname := "Doe",
         ORCID := "", Email := "", Affiliations := ["Uni A", ""], Order := 2 }] =
    affiliation_to_number
      [{ Authorname := "Smith, J.", Firstname := "John", Lastname := "Smith",
         ORCID := "", Email := "", Affiliations := ["Uni B", "Uni A"], Order := 1 },
       { Authorname := "Doe, J.", Firstname := "Jane", Lastname := "Doe",
         ORCID := "", Email := "", Affiliations := ["Uni A", ""], Order := 2 }] :=
  (claim_C6
    [{ Authorname := "Smith, J.", Firstname := "John", Lastname := "Smith",
       ORCID := "", Email := "", Affiliations := ["Uni B", "Uni A"], Order := 1 },
     { Authorname := "Doe, J.", Firstname := "Jane", Lastname := "Doe",
       ORCID := "", Email := "", Affiliations := ["Uni A", ""], Order := 2 }]).2.2.2.2

/-! ## Primary TeX author line (authors.py lines 319-335) -/

/-- One author line of the primary TeX output: optional
`\orcidlink{...}` prefix (suppressed by `--no-orcid-links`), then
`\author[ORCID]{name}` when an ORCID exists, else `\author{name}`. -/
def authorTexLine (no_orcid_links : Bool) (row : Row) : String :=
  (if no_orcid_links = false ∧ row.ORCID ≠ "" then
    ("\\orcidlink\x7b") ++ row.ORCID ++ "\x7d"
  else ("")) ++
  (if row.ORCID ≠ "" then
    ("\\author[") ++ row.ORCID ++ "]\x7b" ++ row.Authorname ++ "\x7d\n"
  else
    ("\\author\x7b") ++ row.Authorname ++ "\x7d\n")

/-- C9: for a row with a non-empty ORCID, `--no-orcid-links` suppresses
only the `\orcidlink` macro: the line with the flag is exactly
`\author[ORCID]{name}` — the ORCID still appears as the optional bracket
argument — and the line without the flag is that same line prefixed with
the `\orcidlink` macro. -/
theorem claim_C9 (row : Row) (h : row.ORCID ≠ "") :
    authorTexLine true row =
      "\\author[" ++ row.ORCID ++ "]\x7b" ++ row.Authorname ++ "\x7d\n" ∧
    authorTexLine false row =
      "\\orcidlink\x7b" ++ row.ORCID ++ "\x7d" ++ authorTexLine true row := by
  have h1 : authorTexLine true row =
      "\\author[" ++ row.ORCID ++ "]\x7b" ++ row.Authorname ++ "\x7d\n" := by
    unfold authorTexLine
    rw [if_neg (by simp), if_pos h]
    exact rfl
  have h2 : authorTexLine false row =
      "\\orcidlink\x7b" ++ row.ORCID ++ "\x7d" ++
        ("\\author[" ++ row.ORCID ++ "]\x7b" ++ row.Authorname ++ "\x7d\n") := by
    unfold authorTexLine
    rw [if_pos ⟨rfl, h⟩, if_pos h]
  refine ⟨h1, ?_⟩
  rw [h2, h1]

/-- Witness for C9 at a concrete row with a non-empty ORCID. -/
theorem claim_C9_witness :
    authorTexLine true
      { Authorname := "Smith, J.", Firstname := "John", Lastname := "Smith",
        ORCID := "0000-0001", Email := "", Affiliations := [], Order := 1 } =
      "\\author[" ++ "0000-0001" ++ "]\x7b" ++ "Smith, J." ++ "\x7d\n" ∧
    authorTexLine false
      { Authorname := "Smith, J.", Firstname := "John", Lastname := "Smith",
        ORCID := "0000-0001", Email := "", Affiliations := [], Order := 1 } =
      "\\orcidlink\x7b" ++ "0000-0001" ++ "\x7d" ++
        authorTexLine true
          { Authorname := "Smith, J.", Firstname := "John", Lastname := "Smith",
            ORCID := "0000-0001", Email := "", Affiliations := [], Order := 1 } :=
  claim_C9
    { Authorname := "Smith, J.", Firstname := "John", Lastname := "Smith",
      ORCID := "0000-0001", Email := "", Affiliations := [], Order := 1 } (by decide)

/-! ## Infrastructure loop (authors.py lines 235-288) -/

/-- `ask_user_confirmation` (authors.py lines 74-96).  The source
function blocks on `input()` and re-prompts until the operator enters an
integer in `0..len(ms)`; it then returns `None` for `0` ("none of the
above") and `ms[choice-1]` otherwise.  The operator's
eventually-accepted answer is abstracted as an `oracle` parameter, and
normalizing its value into the valid range by `% (ms.length + 1)`
realizes the retry loop: the loop's only observable outcome is an
accepted in-range choice, and every in-range choice is reachable. -/
def ask_user_confirmation (oracle : String → List (String × Nat × String) → Nat)
    (target : String) (ms : List (String × Nat × String)) :
    Option (String × Nat × String) :=
  match oracle target ms % (ms.length + 1) with
  | 0 => none
  | Nat.succ k => ms.get? k

/-- The fuzzy fallback for one infrastructure author (lines 253-284):
the confirmed `(Authorname, Lastname)` entry, if any.  `none` covers
every path on which `matched` stays `False`: fuzzy matching disabled, no
fuzzy match at all, all matches already claimed by tier 1, the operator
selecting `0`, or the confirmed name matching no table row. -/
def infraFuzzy (scorer : String → String → Nat)
    (oracle : String → List (String × Nat × String) → Nat)
    (no_fuzzy_matching : Bool) (first_tier_author_names : List String)
    (t : List Row) (author_name : String) : Option (String × String) :=
  if no_fuzzy_matching = false then
    let closest_matches := find_closest_author_match scorer author_name t 70
    if closest_matches ≠ [] then
      let available_matches := closest_matches.filter
        (fun m => m.1 ∉ first_tier_author_names)
      if available_matches ≠ [] then
        match ask_user_confirmation oracle author_name available_matches with
        | some sel =>
          match t.find? (fun r => r.Authorname == sel.1) with
          | some row => some (sel.1, row.Lastname)
          | none => none
        | none => none
      else none
    else none
  else none

/-- One iteration of the infrastructure loop (lines 238-288), threading
the `(infrastructure_found, unmatched_infrastructure)` accumulators. -/
def infraStep (scorer : String → String → Nat)
    (oracle : String → List (String × Nat × String) → Nat)
    (no_fuzzy_matching : Bool)
    (first_tier_original_names first_tier_author_names : List String) (t : List Row)
    (acc : List (String × String) × List String) (author_name : String) :
    List (String × String) × List String :=
  if author_name ∈ first_tier_original_names then acc
  else
    match find_author_name_in_table author_name t with
    | some table_author_name =>
      if table_author_name ∉ first_tier_author_names then
        match t.find? (fun r => r.Authorname == table_author_name) with
        | some row => (acc.1 ++ [(table_author_name, row.Lastname)], acc.2)
        | none => acc
      else
        match infraFuzzy scorer oracle no_fuzzy_matching first_tier_author_names t
            author_name with
        | some entry => (acc.1 ++ [entry], acc.2)
        | none => (acc.1, acc.2 ++ [author_name])
    | none =>
      match infraFuzzy scorer oracle no_fuzzy_matching first_tier_author_names t
          author_name with
      | some entry => (acc.1 ++ [entry], acc.2)
      | none => (acc.1, acc.2 ++ [author_name])

/-- The full infrastructure collection loop. -/
def processInfra (scorer : String → String → Nat)
    (oracle : String → List (String × Nat × String) → Nat)
    (no_fuzzy_matching : Bool)
    (first_tier_original_names first_tier_author_names : List String) (t : List Row)
    (infrastructure_authors : List String) : List (String × String) × List String :=
  infrastructure_authors.foldl
    (infraStep scorer oracle no_fuzzy_matching first_tier_original_names
      first_tier_author_names t) ([], [])

/-- C10: an infrastructure name that is not literally present in the
first-tier raw list but whose exact resolution yields an `Authorname`
already claimed by tier 1 is not silently dropped: the iteration falls
through to the fuzzy branch, and when no alternative match is confirmed
there, the name is appended to the unmatched-infrastructure list that is
reported at the end of the run. -/
theorem claim_C10 (scorer : String → String → Nat)
    (oracle : String → List (String × Nat × String) → Nat) (no_fuzzy_matching : Bool)
    (ftOrig ftNames : List String) (t : List Row)
    (found : List (String × String)) (unmatched : List String)
    (author_name a : String)
    (h1 : author_name ∉ ftOrig)
    (h2 : find_author_name_in_table author_name t = some a)
    (h3 : a ∈ ftNames)
    (h4 : infraFuzzy scorer oracle no_fuzzy_matching ftNames t author_name = none) :
    infraStep scorer oracle no_fuzzy_matching ftOrig ftNames t (found, unmatched)
      author_name = (found, unmatched ++ [author_name]) := by
  unfold infraStep
  rw [if_neg h1]
  simp only [h2]
  have hnn : ¬ a ∉ ftNames := by
    intro hx
    exact hx h3
  rw [if_neg hnn]
  simp only [h4]

/-- Witness for C10: tier 1 lists `"john smith"`, the infrastructure list
carries the differently-spelled `"John Smith"`, exact resolution hits the
tier-1-claimed row, every fuzzy candidate is claimed as well, and the
name lands in the unmatched list. -/
theorem claim_C10_witness :
    infraStep (fun _ _ => 100) (fun _ _ => 0) false ["john smith"] ["Smith, J."]
      [{ Authorname := "Smith, J.", Firstname := "John", Lastname := "Smith",
         ORCID := "", Email := "", Affiliations := [], Order := 1 }]
      ([], []) "John Smith" = ([], [] ++ ["John Smith"]) :=
  claim_C10 (fun _ _ => 100) (fun _ _ => 0) false ["john smith"] ["Smith, J."]
    [{ Authorname := "Smith, J.", Firstname := "John", Lastname := "Smith",
       ORCID := "", Email := "", Affiliations := [], Order := 1 }]
    [] [] "John Smith" "Smith, J." (by decide) (by decide) (by decide) (by decide)

/-! ## The `main` pipeline (authors.py lines 145-362)

File I/O is modelled by finite maps from file names to already-parsed
contents, and the observable I/O actions by an event trace.  Only the
print statements the claims refer to (the paired-flag error, the
missing-file errors and the missing-users warning) are traced; the
purely informational prints are not. -/

inductive Event where
  | read : String → Event
  | write : String → Event
  | print : String → Event
deriving DecidableEq

structure Args where
  input_csv : String
  output_tex : String
  output_csv : String
  first_tier : String
  infrastructure : String
  users_csv : String
  alt_authors_tex : Option String
  alt_affiliations_tex : Option String
  no_fuzzy_matching : Bool
  no_orcid_links : Bool
deriving DecidableEq

/-- Python truthiness of an optional string argument (`bool(x)` at
authors.py lines 161 and 351): `None` and the empty string are falsy,
any non-empty string is truthy.  An `argparse` option that was not
supplied is `None`; one supplied with an explicitly empty value is
`''`, which Python also treats as falsy. -/
def pyTruthy : Option String → Bool
  | none => false
  | some s => !(s == "")

structure FS where
  textFiles : List (String × List String)
  csvFiles : List (String × List CsvRow)
  userFiles : List (String × List UserRow)
deriving DecidableEq

def lookupFile {α : Type} (files : List (String × α)) (name : String) : Option α :=
  (files.find? (fun p => p.1 == name)).map (fun p => p.2)

/-- `parse_author_list` (lines 7-19), applied to the lines of an
existing file: strip each line and skip empties. -/
def parse_author_list (content : List String) : List String :=
  (content.map pyStrip).filter (fun l => l ≠ "")

/-- Helper for the merge step: first occurrences, in input order. -/
def firstOccsAux : List String → List String → List String
  | [], _ => []
  | a :: rest, seen =>
    if a ∈ seen then firstOccsAux rest seen else a :: firstOccsAux rest (a :: seen)

def distinctNames (l : List String) : List String := firstOccsAux l []

/-- `np.unique(table['Authorname'])`: the distinct authornames sorted by
code point. -/
def uniqueSortedNames (rows : List CsvRow) : List String :=
  List.insertionSort nameLe (distinctNames (rows.map (fun r => r.Authorname)))

/-- `np.amax(np.unique(..., return_counts=True)[1])`: the largest group
size (only used on non-empty inputs; on an empty table `np.amax` raises
and the script aborts). -/
def maxGroupSize (rows : List CsvRow) : Nat :=
  (distinctNames (rows.map (fun r => r.Authorname))).foldl
    (fun m nm => max m (rows.countP (fun r => r.Authorname == nm))) 0

/-- The merge step (lines 180-190): one row per distinct authorname (in
`np.unique`'s sorted order, each taken from its first occurrence), with
the group's affiliations collected in input order and padded with blanks
to the fixed width.  The unused `Country` column is not modelled, and
`Order` is initialized later (line 207). -/
def mergeTable (rows : List CsvRow) : List Row :=
  let width := maxGroupSize rows
  (uniqueSortedNames rows).map (fun nm =>
    let group := (rows.filter (fun r => r.Authorname == nm)).map (fun r => r.Affiliation)
    match rows.find? (fun r => r.Authorname == nm) with
    | some r =>
      { Authorname := r.Authorname, Firstname := r.Firstname, Lastname := r.Lastname,
        ORCID := r.ORCID, Email := "",
        Affiliations := group ++ List.replicate (width - group.length) "", Order := 0 }
    | none =>
      { Authorname := nm, Firstname := "", Lastname := "", ORCID := "", Email := "",
        Affiliations := [], Order := 0 })

/-- The email lookup for one row (lines 196-202): the key is
`"Lastname,&nbsp;Firstname"` and the match must be unique. -/
def emailFor (db : List UserRow) (row : Row) : Option String :=
  let name := row.Lastname ++ ",&nbsp;" ++ row.Firstname
  let use := db.filter (fun u => u.Name == name)
  if use.length = 1 then (use.head?).map (fun u => u.Email) else none

def usersWarning (users_csv : String) : String :=
  "Warning: Could not find " ++ users_csv ++ ", proceeding without emails"

/-- The email stage (lines 192-204): blank the `Email` column, then
back-fill from the users table when it exists; a missing users file only
prints a warning. -/
def addEmails (users_csv : String) (db : Option (List UserRow)) (t : List Row) :
    List Row × List Event :=
  let t0 := t.map (fun r => { r with Email := "" })
  match db with
  | none => (t0, [Event.print (usersWarning users_csv)])
  | some users =>
    (t0.map (fun r =>
        match emailFor users r with
        | some e => { r with Email := e }
        | none => r),
     t0.filterMap (fun r =>
        match emailFor users r with
        | some _ => none
        | none => some (Event.print
            ("Can't find email for " ++ r.Firstname ++ " " ++ r.Lastname ++ "."))))

/-- `first_tier_author_names` (lines 227-233): the tier-1 claimed
authornames, re-resolved against the (order-stamped) table. -/
def firstTierAuthorNames (first_tier_authors : List String) (t : List Row) : List String :=
  first_tier_authors.filterMap (fun n => find_author_name_in_table n t)

/-- The TeX block for one row (lines 319-340). -/
def texLinesFor (no_orcid_links : Bool) (row : Row) : List String :=
  authorTexLine no_orcid_links row ::
    ((row.Affiliations.filter (fun a => a ≠ "")).map
      (fun a => "\\affiliation\x7b" ++ a ++ "\x7d\n")) ++ ["\n"]

def texLines (no_orcid_links : Bool) (t : List Row) : List String :=
  t.flatMap (texLinesFor no_orcid_links)

/-- `table['Order'] = np.arange(len(table)) + 1` after the sort (line 315). -/
def renumberFrom : Nat → List Row → List Row
  | _, [] => []
  | n, r :: rs => { r with Order := n } :: renumberFrom (n + 1) rs

/-- `table.sort('Order')` followed by the dense renumbering
(lines 313-315). -/
def sortRenumber (t : List Row) : List Row :=
  renumberFrom 1 (List.insertionSort orderLe t)

structure RunOutput where
  table : List Row
  texOut : List String
  csvOut : List (Nat × String × String × String)
  altAuthorsOut : Option (List String)
  altAffiliationsOut : Option (List String)
  unmatched : List String
deriving DecidableEq

/-- The whole `main`, from argument validation to the output files.
`sys.exit(1)` is `Except.error 1`; the event trace lists the file reads,
file writes and the traced prints in program order. -/
def mainRun (scorer : String → String → Nat)
    (oracle : String → List (String × Nat × String) → Nat)
    (args : Args) (fs : FS) : List Event × Except Nat RunOutput :=
  if (pyTruthy args.alt_authors_tex != pyTruthy args.alt_affiliations_tex) = true then
    ([Event.print
        ("Error: Both --alt-authors-tex and --alt-affiliations-tex must be specified together")],
      .error 1)
  else
    match lookupFile fs.textFiles args.first_tier with
    | none => ([Event.print ("Error: Could not find file " ++ args.first_tier)], .error 1)
    | some ftContent =>
      match lookupFile fs.textFiles args.infrastructure with
      | none => ([Event.read args.first_tier,
                  Event.print ("Error: Could not find file " ++ args.infrastructure)], .error 1)
      | some infraContent =>
        match lookupFile fs.csvFiles args.input_csv with
        | none => ([Event.read args.first_tier, Event.read args.infrastructure,
                    Event.print ("Error: Could not find input file " ++ args.input_csv)],
                   .error 1)
        | some csvRows =>
          if csvRows.isEmpty = true then
            ([Event.read args.first_tier, Event.read args.infrastructure,
              Event.read args.input_csv], .error 1)
          else
            let first_tier_authors := parse_author_list ftContent
            let infrastructure_authors := parse_author_list infraContent
            let merged := mergeTable csvRows
            let usersDb := lookupFile fs.userFiles args.users_csv
            let emailRes := addEmails args.users_csv usersDb merged
            let readEvents := [Event.read args.first_tier, Event.read args.infrastructure,
                Event.read args.input_csv] ++
              (match usersDb with
               | some _ => [Event.read args.users_csv]
               | none => [])
            let t2 := emailRes.1.map (fun r => { r with Order := 99999 })
            match assignTier1 first_tier_authors t2 1 with
            | .error c => (readEvents ++ emailRes.2, .error c)
            | .ok res1 =>
              let ftNames := firstTierAuthorNames first_tier_authors res1.1
              let infraRes := processInfra scorer oracle args.no_fuzzy_matching
                first_tier_authors ftNames res1.1 infrastructure_authors
              let res2 := tier2Assign res1.1 infraRes.1 res1.2
              let res3 := tier3Assign res2.1 res2.2
              let tFinal := sortRenumber res3.1
              let altOut :=
                if (pyTruthy args.alt_authors_tex && pyTruthy args.alt_affiliations_tex) = true then
                  (some (generate_numbered_affiliation_output tFinal (!args.no_orcid_links)).1,
                   some (generate_numbered_affiliation_output tFinal (!args.no_orcid_links)).2)
                else ((none : Option (List String)), (none : Option (List String)))
              let writeEvents := [Event.write args.output_tex, Event.write args.output_csv] ++
                (if (pyTruthy args.alt_authors_tex && pyTruthy args.alt_affiliations_tex) = true then
                  [Event.write (args.alt_authors_tex.getD ("")),
                   Event.write (args.alt_affiliations_tex.getD (""))]
                 else [])
              (readEvents ++ emailRes.2 ++ writeEvents,
               .ok { table := tFinal,
                     texOut := texLines args.no_orcid_links tFinal,
                     csvOut := tFinal.map (fun r => (r.Order, r.Firstname, r.Lastname, r.Email)),
                     altAuthorsOut := altOut.1,
                     altAffiliationsOut := altOut.2,
                     unmatched := infraRes.2 })

/-! ## C1: the final sort and renumbering -/

theorem renumberFrom_map_order : ∀ (l : List Row) (n : Nat),
    (renumberFrom n l).map (fun r => r.Order) = List.range' n l.length := by
  intro l
  induction l with
  | nil => intro n; rfl
  | cons r rs ih =>
    intro n
    simp only [renumberFrom, List.map_cons, List.length_cons, List.range'_succ, ih]

theorem renumberFrom_length : ∀ (l : List Row) (n : Nat),
    (renumberFrom n l).length = l.length := by
  intro l
  induction l with
  | nil => intro n; rfl
  | cons r rs ih => intro n; simp [renumberFrom, ih]

theorem sortRenumber_orders (t : List Row) :
    (sortRenumber t).map (fun r => r.Order) = List.range' 1 (sortRenumber t).length := by
  unfold sortRenumber
  rw [renumberFrom_map_order, renumberFrom_length]

/-- C1: in every run that reaches the output stage (i.e. `main` returns
successfully), after the final sort and renumbering the list of `Order`
values over the table's rows is exactly `[1, …, N]` with `N` the row
count — every row has a unique `Order` with no duplicates and no gaps,
regardless of any gaps or duplicate assignments introduced during tier
assignment. -/
theorem claim_C1 (scorer : String → String → Nat)
    (oracle : String → List (String × Nat × String) → Nat)
    (args : Args) (fs : FS) (tr : List Event) (out : RunOutput)
    (h : mainRun scorer oracle args fs = (tr, .ok out)) :
    out.table.map (fun r => r.Order) = List.range' 1 out.table.length := by
  simp only [mainRun] at h
  split at h
  · simp at h
  · split at h
    · simp at h
    · split at h
      · simp at h
      · split at h
        · simp at h
        · split at h
          · simp at h
          · split at h
            · simp at h
            · injection h with htr hsnd
              injection hsnd with hout
              rw [← hout]
              exact sortRenumber_orders _

/-- Witness for C1: a complete one-author run that reaches the output
stage; the hypothesis is discharged by evaluating the whole pipeline. -/
theorem claim_C1_witness :
    ([({ Authorname := "Smith, A.", Firstname := "Alice", Lastname := "Smith",
         ORCID := "", Email := "", Affiliations := ["Uni A"], Order := 1 }) ] : List Row).map
        (fun r => r.Order) = List.range' 1 1 :=
  claim_C1 (fun _ _ => 0) (fun _ _ => 0)
    { input_csv := "in.csv", output_tex := "o.tex", output_csv := "o.csv",
      first_tier := "ft.txt", infrastructure := "infra.txt", users_csv := "Users.csv",
      alt_authors_tex := none, alt_affiliations_tex := none,
      no_fuzzy_matching := true, no_orcid_links := false }
    { textFiles := [("ft.txt", ["Alice Smith"]), ("infra.txt", [])],
      csvFiles := [("in.csv",
        [{ Authorname := "Smith, A.", Firstname := "Alice", Lastname := "Smith",
           ORCID := "", Affiliation := "Uni A" }])],
      userFiles := [] }
    [Event.read ("ft.txt"), Event.read ("infra.txt"), Event.read ("in.csv"),
     Event.print ("Warning: Could not find Users.csv, proceeding without emails"),
     Event.write ("o.tex"), Event.write ("o.csv")]
    { table := [{ Authorname := "Smith, A.", Firstname := "Alice", Lastname := "Smith",
                  ORCID := "", Email := "", Affiliations := ["Uni A"], Order := 1 }],
      texOut := ["\\author\x7bSmith, A.\x7d\n", "\\affiliation\x7bUni A\x7d\n", "\n"],
      csvOut := [(1, "Alice", "Smith", "")],
      altAuthorsOut := none, altAffiliationsOut := none, unmatched := [] }
    (by rfl)

/-! ## C7: paired-flag validation -/

/-- Counterexample to C7 as stated: the paired-flag check at
authors.py line 161 tests Python truthiness, and `bool('') = False`, so
an invocation that supplies exactly one of the two flags — here
`--alt-authors-tex ''` with `--alt-affiliations-tex` absent — is
treated as supplying neither: the program does not exit with non-zero
status, it reads its input files and completes successfully. -/
theorem claim_C7_counterexample :
    (some ("") : Option String).isSome ≠ (none : Option String).isSome ∧
    (mainRun (fun _ _ => 0) (fun _ _ => 0)
      { input_csv := "in.csv", output_tex := "o.tex", output_csv := "o.csv",
        first_tier := "ft.txt", infrastructure := "infra.txt", users_csv := "Users.csv",
        alt_authors_tex := some (""), alt_affiliations_tex := none,
        no_fuzzy_matching := true, no_orcid_links := false }
      { textFiles := [("ft.txt", ["Alice Smith"]), ("infra.txt", [])],
        csvFiles := [("in.csv",
          [{ Authorname := "Smith, A.", Firstname := "Alice", Lastname := "Smith",
             ORCID := "", Affiliation := "Uni A" }])],
        userFiles := [] }).2.isOk = true ∧
    Event.read ("ft.txt") ∈
      (mainRun (fun _ _ => 0) (fun _ _ => 0)
        { input_csv := "in.csv", output_tex := "o.tex", output_csv := "o.csv",
          first_tier := "ft.txt", infrastructure := "infra.txt", users_csv := "Users.csv",
          alt_authors_tex := some (""), alt_affiliations_tex := none,
          no_fuzzy_matching := true, no_orcid_links := false }
        { textFiles := [("ft.txt", ["Alice Smith"]), ("infra.txt", [])],
          csvFiles := [("in.csv",
            [{ Authorname := "Smith, A.", Firstname := "Alice", Lastname := "Smith",
               ORCID := "", Affiliation := "Uni A" }])],
          userFiles := [] }).1 :=
  ⟨by decide, by rfl, by decide⟩

/-- C7 (amended): "supplied" means supplied with a non-empty value — the
check tests Python truthiness, under which an absent flag and a flag
given the empty string are alike falsy.  For every invocation where
exactly one of `--alt-authors-tex` and `--alt-affiliations-tex` carries
a non-empty value, the program prints the pairing error and exits with
status 1 before performing any file I/O: the whole event trace is that
single print — it contains no read and no write. -/
theorem claim_C7_amended (scorer : String → String → Nat)
    (oracle : String → List (String × Nat × String) → Nat)
    (args : Args) (fs : FS)
    (h : pyTruthy args.alt_authors_tex ≠ pyTruthy args.alt_affiliations_tex) :
    mainRun scorer oracle args fs =
      ([Event.print
          ("Error: Both --alt-authors-tex and --alt-affiliations-tex must be specified together")],
        .error 1) ∧
    ∀ e ∈ (mainRun scorer oracle args fs).1, ∀ name : String,
      e ≠ Event.read name ∧ e ≠ Event.write name := by
  have hb : (pyTruthy args.alt_authors_tex != pyTruthy args.alt_affiliations_tex) = true := by
    simp [bne_iff_ne]
    exact h
  have heq : mainRun scorer oracle args fs =
      ([Event.print
          ("Error: Both --alt-authors-tex and --alt-affiliations-tex must be specified together")],
        .error 1) := by
    unfold mainRun
    rw [if_pos hb]
  refine ⟨heq, ?_⟩
  intro e he name
  rw [heq] at he
  rcases List.mem_cons.mp he with h1 | h1
  · rw [h1]
    exact ⟨by simp, by simp⟩
  · simp at h1

/-- Witness for the amended C7: `--alt-authors-tex` supplied with a
non-empty path and `--alt-affiliations-tex` absent, on an otherwise
fully-populated filesystem; nothing is read or written. -/
theorem claim_C7_amended_witness :
    mainRun (fun _ _ => 0) (fun _ _ => 0)
      { input_csv := "in.csv", output_tex := "o.tex", output_csv := "o.csv",
        first_tier := "ft.txt", infrastructure := "infra.txt", users_csv := "Users.csv",
        alt_authors_tex := some ("alt.tex"), alt_affiliations_tex := none,
        no_fuzzy_matching := true, no_orcid_links := false }
      { textFiles := [("ft.txt", ["Alice Smith"]), ("infra.txt", [])],
        csvFiles := [("in.csv",
          [{ Authorname := "Smith, A.", Firstname := "Alice", Lastname := "Smith",
             ORCID := "", Affiliation := "Uni A" }])],
        userFiles := [] } =
      ([Event.print
          ("Error: Both --alt-authors-tex and --alt-affiliations-tex must be specified together")],
        .error 1) :=
  (claim_C7_amended (fun _ _ => 0) (fun _ _ => 0)
    { input_csv := "in.csv", output_tex := "o.tex", output_csv := "o.csv",
      first_tier := "ft.txt", infrastructure := "infra.txt", users_csv := "Users.csv",
      alt_authors_tex := some ("alt.tex"), alt_affiliations_tex := none,
      no_fuzzy_matching := true, no_orcid_links := false }
    { textFiles := [("ft.txt", ["Alice Smith"]), ("infra.txt", [])],
      csvFiles := [("in.csv",
        [{ Authorname := "Smith, A.", Firstname := "Alice", Lastname := "Smith",
           ORCID := "", Affiliation := "Uni A" }])],
      userFiles := [] } (by decide)).1

/-! ## C8: a missing users file is never fatal

Two tables that agree on everything except the `Email` column drive the
order-assignment stages identically, because no stage after the email
back-fill ever reads `Email`. -/

def EqExceptEmail (r s : Row) : Prop :=
  r.Authorname = s.Authorname ∧ r.Firstname = s.Firstname ∧ r.Lastname = s.Lastname ∧
  r.ORCID = s.ORCID ∧ r.Affiliations = s.Affiliations ∧ r.Order = s.Order

theorem rowMatchesAt_congr (parts : List String) (i : Nat) (r s : Row)
    (h : EqExceptEmail r s) : rowMatchesAt parts i r = rowMatchesAt parts i s := by
  unfold rowMatchesAt
  rw [h.2.1, h.2.2.1]

theorem searchRows_congr (parts : List String) (i : Nat) :
    ∀ {t t' : List Row}, List.Forall₂ EqExceptEmail t t' →
      searchRows parts i t = searchRows parts i t' := by
  intro t t' h
  induction h with
  | nil => rfl
  | @cons r s l1 l2 hab hrest ih =>
    simp only [searchRows]
    rw [rowMatchesAt_congr parts i r s hab, hab.1]
    by_cases hm : rowMatchesAt parts i s = true
    · rw [if_pos hm, if_pos hm]
    · rw [if_neg hm, if_neg hm]
      exact ih

theorem trySplits_congr (parts : List String) {t t' : List Row}
    (h : List.Forall₂ EqExceptEmail t t') :
    ∀ is, trySplits parts t is = trySplits parts t' is := by
  intro is
  induction is with
  | nil => rfl
  | cons i rest ih =>
    simp only [trySplits]
    rw [searchRows_congr parts i h]
    cases searchRows parts i t' with
    | some a => rfl
    | none => exact ih

theorem find_author_congr (n : String) {t t' : List Row}
    (h : List.Forall₂ EqExceptEmail t t') :
    find_author_name_in_table n t = find_author_name_in_table n t' := by
  unfold find_author_name_in_table
  by_cases hl : (pyWords (pyStrip n)).length < 2
  · simp [hl]
  · simp only [hl, if_false]
    exact trySplits_congr (pyWords (pyStrip n)) h _

theorem any_auth_congr (a : String) :
    ∀ {t t' : List Row}, List.Forall₂ EqExceptEmail t t' →
      (t.any (fun r => r.Authorname == a)) = (t'.any (fun r => r.Authorname == a)) := by
  intro t t' h
  induction h with
  | nil => rfl
  | @cons r s l1 l2 hab hrest ih =>
    simp only [List.any_cons]
    rw [hab.1, ih]

theorem setOrder_forall₂ (a : String) (c : Nat) :
    ∀ {t t' : List Row}, List.Forall₂ EqExceptEmail t t' →
      List.Forall₂ EqExceptEmail (setOrder t a c) (setOrder t' a c) := by
  intro t t' h
  induction h with
  | nil => exact List.Forall₂.nil
  | @cons r s l1 l2 hab hrest ih =>
    simp only [setOrder, List.map_cons]
    simp only [setOrder] at ih
    refine List.Forall₂.cons ?_ ih
    by_cases hr : r.Authorname = a
    · have hs : s.Authorname = a := by rw [← hab.1]; exact hr
      rw [if_pos hr, if_pos hs]
      exact ⟨hab.1, hab.2.1, hab.2.2.1, hab.2.2.2.1, hab.2.2.2.2.1, rfl⟩
    · have hs : s.Authorname ≠ a := by rw [← hab.1]; exact hr
      rw [if_neg hr, if_neg hs]
      exact hab

theorem assignTier1_isOk_congr : ∀ (names : List String) {t t' : List Row} (c : Nat),
    List.Forall₂ EqExceptEmail t t' →
    (assignTier1 names t c).isOk = (assignTier1 names t' c).isOk := by
  intro names
  induction names with
  | nil => intro t t' c _; rfl
  | cons n rest ih =>
    intro t t' c h
    have hf : find_author_name_in_table n t = find_author_name_in_table n t' :=
      find_author_congr n h
    cases ha : find_author_name_in_table n t' with
    | none => simp [assignTier1, hf, ha]
    | some a =>
      have hany : (t.any (fun r => r.Authorname == a)) =
          (t'.any (fun r => r.Authorname == a)) := any_auth_congr a h
      by_cases hb : (t'.any (fun r => r.Authorname == a)) = true
      · simp only [assignTier1, hf, ha, hany, hb, if_true]
        exact ih (c + 1) (setOrder_forall₂ a c h)
      · simp only [Bool.not_eq_true] at hb
        simp [assignTier1, hf, ha, hany, hb]

theorem forall₂_map_same (t : List Row) (f g : Row → Row)
    (h : ∀ r ∈ t, EqExceptEmail (f r) (g r)) :
    List.Forall₂ EqExceptEmail (t.map f) (t.map g) := by
  induction t with
  | nil => exact List.Forall₂.nil
  | cons r rest ih =>
    simp only [List.map_cons]
    exact List.Forall₂.cons (h r (List.mem_cons_self _ _))
      (ih (fun x hx => h x (List.mem_cons_of_mem _ hx)))

theorem addEmails_forall₂ (users_csv : String) (db : List UserRow) (t : List Row) :
    List.Forall₂ EqExceptEmail (addEmails users_csv none t).1
      (addEmails users_csv (some db) t).1 := by
  simp only [addEmails, List.map_map]
  apply forall₂_map_same
  intro r _
  simp only [Function.comp]
  cases h : emailFor db { r with Email := "" } with
  | some e =>
    simp only [h]
    exact ⟨rfl, rfl, rfl, rfl, rfl, rfl⟩
  | none =>
    simp only [h]
    exact ⟨rfl, rfl, rfl, rfl, rfl, rfl⟩

theorem forall₂_order_map {t t' : List Row}
    (h : List.Forall₂ EqExceptEmail t t') :
    List.Forall₂ EqExceptEmail (t.map (fun r => { r with Order := 99999 }))
      (t'.map (fun r => { r with Order := 99999 })) := by
  induction h with
  | nil => exact List.Forall₂.nil
  | @cons r s l1 l2 hab hrest ih =>
    simp only [List.map_cons]
    exact List.Forall₂.cons
      ⟨hab.1, hab.2.1, hab.2.2.1, hab.2.2.2.1, hab.2.2.2.2.1, rfl⟩ ih

/-! Blank-email preservation through the stages. -/

theorem setOrder_email (t : List Row) (a : String) (c : Nat)
    (h : ∀ r ∈ t, r.Email = "") : ∀ r ∈ setOrder t a c, r.Email = "" := by
  intro r hr
  obtain ⟨s, hs, hse⟩ := List.mem_map.mp hr
  by_cases hsa : s.Authorname = a
  · rw [if_pos hsa] at hse
    rw [← hse]
    exact h s hs
  · rw [if_neg hsa] at hse
    rw [← hse]
    exact h s hs

theorem assignTier1_email : ∀ (names : List String) (t : List Row) (c : Nat)
    (res : List Row × Nat), assignTier1 names t c = .ok res →
    (∀ r ∈ t, r.Email = "") → ∀ r ∈ res.1, r.Email = "" := by
  intro names
  induction names with
  | nil =>
    intro t c res heq hb
    simp only [assignTier1] at heq
    injection heq with heq
    rw [← heq]
    exact hb
  | cons n rest ih =>
    intro t c res heq hb
    cases ha : find_author_name_in_table n t with
    | none =>
      simp only [assignTier1, ha] at heq
      exact absurd heq (by simp)
    | some a =>
      by_cases hany : (t.any (fun r => r.Authorname == a)) = true
      · simp only [assignTier1, ha, hany, if_true] at heq
        exact ih (setOrder t a c) (c + 1) res heq (setOrder_email t a c hb)
      · simp only [Bool.not_eq_true] at hany
        simp only [assignTier1, ha, hany, Bool.false_eq_true, if_false] at heq
        exact absurd heq (by simp)

theorem assignTier2_email : ∀ (pairs : List (String × String)) (t : List Row) (c : Nat),
    (∀ r ∈ t, r.Email = "") → ∀ r ∈ (assignTier2 t pairs c).1, r.Email = "" := by
  intro pairs
  induction pairs with
  | nil =>
    intro t c hb
    simpa [assignTier2] using hb
  | cons hd rest ih =>
    intro t c hb
    obtain ⟨an, l⟩ := hd
    by_cases hany : (t.any (fun r => r.Authorname == an)) = true
    · simp only [assignTier2, hany, if_true]
      exact ih (setOrder t an c) (c + 1) (setOrder_email t an c hb)
    · simp only [Bool.not_eq_true] at hany
      simp only [assignTier2, hany, Bool.false_eq_true, if_false]
      exact ih t c hb

theorem assignTier3_email : ∀ (pairs : List (String × String)) (t : List Row) (c : Nat),
    (∀ r ∈ t, r.Email = "") → ∀ r ∈ (assignTier3 t pairs c).1, r.Email = "" := by
  intro pairs
  induction pairs with
  | nil =>
    intro t c hb
    simpa [assignTier3] using hb
  | cons hd rest ih =>
    intro t c hb
    obtain ⟨an, l⟩ := hd
    simp only [assignTier3]
    exact ih (setOrder t an c) (c + 1) (setOrder_email t an c hb)

theorem renumberFrom_email : ∀ (l : List Row) (n : Nat),
    (∀ r ∈ l, r.Email = "") → ∀ r ∈ renumberFrom n l, r.Email = "" := by
  intro l
  induction l with
  | nil => intro n _ r hr; simp [renumberFrom] at hr
  | cons x xs ih =>
    intro n hb r hr
    rcases List.mem_cons.mp hr with h1 | h1
    · rw [h1]
      exact hb x (List.mem_cons_self _ _)
    · exact ih (n + 1) (fun y hy => hb y (List.mem_cons_of_mem _ hy)) r h1

theorem sortRenumber_email (t : List Row) (h : ∀ r ∈ t, r.Email = "") :
    ∀ r ∈ sortRenumber t, r.Email = "" := by
  unfold sortRenumber
  apply renumberFrom_email
  intro r hr
  exact h r ((List.mem_insertionSort orderLe).mp hr)

theorem blank_after_init (t : List Row) :
    ∀ r ∈ (t.map (fun r => { r with Email := "" })).map (fun r => { r with Order := 99999 }),
      r.Email = "" := by
  intro r hr
  simp only [List.map_map, List.mem_map] at hr
  obtain ⟨s, _, hse⟩ := hr
  rw [← hse]
  rfl

/-- C8: when the users CSV is missing, the run is never aborted by the
email stage: every successful run has a completely blank `Email` column
and the warning in its trace, and whether the run succeeds at all is
exactly the same as for the identical run with a users file present —
the missing users file never changes the exit status. -/
theorem claim_C8 (scorer : String → String → Nat)
    (oracle : String → List (String × Nat × String) → Nat)
    (args : Args) (fs : FS) (db : List UserRow)
    (hmissing : lookupFile fs.userFiles args.users_csv = none) :
    (∀ tr out, mainRun scorer oracle args fs = (tr, .ok out) →
      (∀ r ∈ out.table, r.Email = "") ∧
      Event.print (usersWarning args.users_csv) ∈ tr) ∧
    (mainRun scorer oracle args fs).2.isOk =
      (mainRun scorer oracle args
        { fs with userFiles := (args.users_csv, db) :: fs.userFiles }).2.isOk := by
  constructor
  · intro tr out h
    simp only [mainRun, hmissing, addEmails] at h
    split at h
    · simp at h
    · split at h
      · simp at h
      · split at h
        · simp at h
        · split at h
          · simp at h
          · split at h
            · simp at h
            · split at h
              · simp at h
              · rename_i res1 htier
                injection h with htr hsnd
                injection hsnd with hout
                constructor
                · rw [← hout]
                  intro r hr
                  refine sortRenumber_email _ ?_ r hr
                  intro x hx
                  refine assignTier3_email _ _ _ ?_ x hx
                  intro y hy
                  refine assignTier2_email _ _ _ ?_ y hy
                  exact assignTier1_email _ _ _ _ htier (blank_after_init _)
                · rw [← htr]
                  simp
  · have hT : ({ fs with userFiles := (args.users_csv, db) :: fs.userFiles } : FS).textFiles =
        fs.textFiles := rfl
    have hCf : ({ fs with userFiles := (args.users_csv, db) :: fs.userFiles } : FS).csvFiles =
        fs.csvFiles := rfl
    have hU : ({ fs with userFiles := (args.users_csv, db) :: fs.userFiles } : FS).userFiles =
        (args.users_csv, db) :: fs.userFiles := rfl
    have hdb' : lookupFile ((args.users_csv, db) :: fs.userFiles) args.users_csv = some db := by
      simp [lookupFile, List.find?]
    by_cases hflag : (pyTruthy args.alt_authors_tex != pyTruthy args.alt_affiliations_tex) = true
    · simp [mainRun, hflag]
    · rw [Bool.not_eq_true] at hflag
      cases hft : lookupFile fs.textFiles args.first_tier with
      | none => simp [mainRun, hflag, hft, hT]
      | some ftc =>
        cases hinf : lookupFile fs.textFiles args.infrastructure with
        | none => simp [mainRun, hflag, hft, hinf, hT]
        | some infc =>
          cases hcsv : lookupFile fs.csvFiles args.input_csv with
          | none => simp [mainRun, hflag, hft, hinf, hcsv, hT, hCf]
          | some rows =>
            by_cases hemp : rows.isEmpty = true
            · simp [mainRun, hflag, hft, hinf, hcsv, hemp, hT, hCf]
            · rw [Bool.not_eq_true] at hemp
              have hfa : List.Forall₂ EqExceptEmail
                  ((addEmails args.users_csv none (mergeTable rows)).1.map
                    (fun r => { r with Order := 99999 }))
                  ((addEmails args.users_csv (some db) (mergeTable rows)).1.map
                    (fun r => { r with Order := 99999 })) :=
                forall₂_order_map (addEmails_forall₂ args.users_csv db (mergeTable rows))
              have hstat := assignTier1_isOk_congr (parse_author_list ftc) 1 hfa
              simp only [mainRun, hflag, hft, hinf, hcsv, hemp, hT, hCf, hU, hmissing, hdb',
                Bool.false_eq_true, if_false]
              cases h1 : assignTier1 (parse_author_list ftc)
                  ((addEmails args.users_csv none (mergeTable rows)).1.map
                    (fun r => { r with Order := 99999 })) 1 with
              | error c =>
                cases h1' : assignTier1 (parse_author_list ftc)
                    ((addEmails args.users_csv (some db) (mergeTable rows)).1.map
                      (fun r => { r with Order := 99999 })) 1 with
                | error c' => simp [h1, h1', Except.isOk, Except.toBool]
                | ok r1' =>
                  rw [h1, h1'] at hstat
                  simp [Except.isOk, Except.toBool] at hstat
              | ok r1 =>
                cases h1' : assignTier1 (parse_author_list ftc)
                    ((addEmails args.users_csv (some db) (mergeTable rows)).1.map
                      (fun r => { r with Order := 99999 })) 1 with
                | error c' =>
                  rw [h1, h1'] at hstat
                  simp [Except.isOk, Except.toBool] at hstat
                | ok r1' => simp [h1, h1', Except.isOk, Except.toBool]

/-- Counterexample to C8 read literally ("for every run where the users
CSV is missing … the exit status remains 0"): a run whose users CSV is
missing but whose first-tier file is also missing exits with status 1.
The missing users file is not what aborts the run — which the amended
claim states. -/
theorem claim_C8_counterexample :
    lookupFile ({ textFiles := [], csvFiles := [], userFiles := [] } : FS).userFiles
      "Users.csv" = none ∧
    mainRun (fun _ _ => 0) (fun _ _ => 0)
      { input_csv := "in.csv", output_tex := "o.tex", output_csv := "o.csv",
        first_tier := "ft.txt", infrastructure := "infra.txt", users_csv := "Users.csv",
        alt_authors_tex := none, alt_affiliations_tex := none,
        no_fuzzy_matching := true, no_orcid_links := false }
      { textFiles := [], csvFiles := [], userFiles := [] } =
      ([Event.print ("Error: Could not find file " ++ "ft.txt")], .error 1) :=
  ⟨rfl, rfl⟩

/-- Witness for C8: a concrete run without `Users.csv` has the same
success status as the identical run with a users database present. -/
theorem claim_C8_witness :
    (mainRun (fun _ _ => 0) (fun _ _ => 0)
      { input_csv := "in.csv", output_tex := "o.tex", output_csv := "o.csv",
        first_tier := "ft.txt", infrastructure := "infra.txt", users_csv := "Users.csv",
        alt_authors_tex := none, alt_affiliations_tex := none,
        no_fuzzy_matching := true, no_orcid_links := false }
      { textFiles := [("ft.txt", ["Alice Smith"]), ("infra.txt", [])],
        csvFiles := [("in.csv",
          [{ Authorname := "Smith, A.", Firstname := "Alice", Lastname := "Smith",
             ORCID := "", Affiliation := "Uni A" }])],
        userFiles := [] }).2.isOk =
    (mainRun (fun _ _ => 0) (fun _ _ => 0)
      { input_csv := "in.csv", output_tex := "o.tex", output_csv := "o.csv",
        first_tier := "ft.txt", infrastructure := "infra.txt", users_csv := "Users.csv",
        alt_authors_tex := none, alt_affiliations_tex := none,
        no_fuzzy_matching := true, no_orcid_links := false }
      { ({ textFiles := [("ft.txt", ["Alice Smith"]), ("infra.txt", [])],
           csvFiles := [("in.csv",
             [{ Authorname := "Smith, A.", Firstname := "Alice", Lastname := "Smith",
                ORCID := "", Affiliation := "Uni A" }])],
           userFiles := [] } : FS) with
        userFiles := ("Users.csv", [{ Name := "Smith,&nbsp;Alice", Email := "a@b.c" }]) ::
          ({ textFiles := [("ft.txt", ["Alice Smith"]), ("infra.txt", [])],
             csvFiles := [("in.csv",
               [{ Authorname := "Smith, A.", Firstname := "Alice", Lastname := "Smith",
                  ORCID := "", Affiliation := "Uni A" }])],
             userFiles := [] } : FS).userFiles }).2.isOk :=
  (claim_C8 (fun _ _ => 0) (fun _ _ => 0)
    { input_csv := "in.csv", output_tex := "o.tex", output_csv := "o.csv",
      first_tier := "ft.txt", infrastructure := "infra.txt", users_csv := "Users.csv",
      alt_authors_tex := none, alt_affiliations_tex := none,
      no_fuzzy_matching := true, no_orcid_links := false }
    { textFiles := [("ft.txt", ["Alice Smith"]), ("infra.txt", [])],
      csvFiles := [("in.csv",
        [{ Authorname := "Smith, A.", Firstname := "Alice", Lastname := "Smith",
           ORCID := "", Affiliation := "Uni A" }])],
      userFiles := [] }
    [{ Name := "Smith,&nbsp;Alice", Email := "a@b.c" }] (by decide)).2

end AuthorsPy
